import Mathlib

/-!
Verification of the `one_assert` crate's expression classification-and-rewrite
engine (`src/lib.rs`, `src/utils.rs`).

The proc-macro takes a `syn::Expr` condition plus an optional format-message
token stream and produces a `TokenStream` of replacement code.  This file is a
shallow embedding of that transformation:

* token streams that the macro only copies around are modelled by their
  rendered text (`Str := List Char`);
* the `syn::Expr` AST is modelled by `Expr` below, with one constructor per
  `syn::Expr` variant that `eval_expr` matches on; variants that the macro
  never takes apart carry only their source text;
* the generated replacement code is modelled structurally by `Output`: every
  `quote!` template in the source corresponds to one constructor;
* synthetic identifiers `__one_assert_{name}_{id}` are modelled by the pair
  `(name, id)`, which determines the rendered identifier;
* the runtime behaviour of the generated code is modelled by a pure big-step
  evaluator parameterised by an oracle environment `Env` that fixes the value
  of opaque user sub-expressions, the semantics of operators / calls /
  patterns, and the `Debug` formatting of values.  Statements hoisted
  verbatim are treated as effect-free under this valuation model.
-/

set_option linter.unusedVariables false

abbrev Str := List Char

def lbrace : Char := '\x7b'

def rbrace : Char := '\x7d'

/-- Model of Rust `str::replace` for a single-character pattern. -/
def replaceChar (t : Char) (r : Str) : Str → Str
  | [] => []
  | c :: rest => (if c = t then r else [c]) ++ replaceChar t r rest

/-- The brace-escaping step of `printable_expr_string`:
`.replace('{', "{{").replace('}', "}}")`. -/
def escapeBraces (s : Str) : Str :=
  replaceChar rbrace [rbrace, rbrace] (replaceChar lbrace [lbrace, lbrace] s)

/-- Number of positional `\x7b\x7d` placeholders in a Rust format string,
scanning left to right with doubled braces as escapes. -/
def countPH : Str → Nat
  | [] => 0
  | [_] => 0
  | a :: b :: rest =>
    if a = lbrace ∧ b = lbrace then countPH rest
    else if a = lbrace ∧ b = rbrace then countPH rest + 1
    else if a = rbrace ∧ b = rbrace then countPH rest
    else countPH (b :: rest)

/-- Runtime rendering of a format string: placeholders are substituted by the
formatted arguments in order, doubled braces become literal braces. -/
def render : Str → List Str → Str
  | [], _ => []
  | [c], _ => [c]
  | a :: b :: rest, vs =>
    if a = lbrace ∧ b = lbrace then lbrace :: render rest vs
    else if a = lbrace ∧ b = rbrace then
      match vs with
      | v :: vs => v ++ render rest vs
      | [] => render rest []
    else if a = rbrace ∧ b = rbrace then rbrace :: render rest vs
    else a :: render (b :: rest) vs

def isPrefixAt : Str → Str → Bool
  | [], _ => true
  | _ :: _, [] => false
  | a :: as, b :: bs => a = b && isPrefixAt as bs

/-- Number of (possibly overlapping) occurrences of `needle` in the haystack. -/
def countSubstr (needle : Str) : Str → Nat
  | [] => 0
  | c :: rest => (if isPrefixAt needle (c :: rest) then 1 else 0) + countSubstr needle rest

/-- Right-alignment to width `w` with space fill, as Rust `{name:>w$}`. -/
def padTo (w : Nat) (s : Str) : Str := List.replicate (w - s.length) ' ' ++ s

def digitChar : Nat → Char
  | 0 => '0'
  | 1 => '1'
  | 2 => '2'
  | 3 => '3'
  | 4 => '4'
  | 5 => '5'
  | 6 => '6'
  | 7 => '7'
  | 8 => '8'
  | _ => '9'

def natStrAux : Nat → Nat → Str
  | 0, _ => []
  | fuel + 1, n => if n < 10 then [digitChar n] else natStrAux fuel (n / 10) ++ [digitChar (n % 10)]

/-- Decimal rendering of a natural number (model of Rust integer `Display`). -/
def natStr (n : Nat) : Str := natStrAux (n + 1) n

def concatMap (f : α → Str) : List α → Str
  | [] => []
  | x :: xs => f x ++ concatMap f xs

/-! ## The `syn::Expr` AST model -/

mutual

/-- Model of `syn::Expr`, one constructor per variant matched in `eval_expr`.
Variants that the macro never destructures carry only their rendered text.
`assign` additionally carries an opaque span id for its `eq_token`. -/
inductive Expr : Type where
  | array (text : Str)
  | assign (text : Str) (eqTok : Nat)
  | asyncE (text : Str)
  | awaitE (text : Str)
  | binary (attrs : Str) (l : Expr) (op : Str) (r : Expr)
  | blockE (b : Blk)
  | breakE (text : Str)
  | call (attrs : Str) (func : Expr) (args : ExprList)
  | cast (inner : Expr) (ty : Str)
  | closure (text : Str)
  | constE (b : Blk)
  | continueE (text : Str)
  | field (text : Str)
  | forLoop (text : Str)
  | group (inner : Expr)
  | ifE (attrs : Str) (cond : Expr) (thenB : Blk) (elseB : Option Expr)
  | indexE (attrs : Str) (obj : Expr) (idx : Expr)
  | infer (text : Str)
  | letE (text : Str)
  | lit (text : Str)
  | loopE (text : Str)
  | macroE (text : Str)
  | matchE (attrs : Str) (scrut : Expr) (arms : Arms)
  | methodCall (attrs : Str) (recv : Expr) (method : Str) (turbofish : Str) (args : ExprList)
  | paren (inner : Expr)
  | path (text : Str)
  | range (text : Str)
  | reference (text : Str)
  | repeatE (text : Str)
  | returnE (text : Str)
  | structE (text : Str)
  | tryE (text : Str)
  | tuple (text : Str)
  | unary (attrs : Str) (op : Str) (operand : Expr)
  | unsafeE (attrs : Str) (b : Blk)
  | verbatim (text : Str)
  | whileE (text : Str)

inductive ExprList : Type where
  | nil
  | cons (e : Expr) (rest : ExprList)

/-- Match arms; `pat` is the rendered `#pat #guard` pattern token text
(the guard, if any, is part of it, exactly as in the source). -/
inductive Arms : Type where
  | nil
  | cons (attrs : Str) (pat : Str) (body : Expr) (rest : Arms)

inductive Blk : Type where
  | mk (stmts : StmtList)

inductive StmtList : Type where
  | nil
  | cons (s : Stmt) (rest : StmtList)

/-- Model of `syn::Stmt`: an expression statement with or without trailing
semicolon, or any other statement kind (hoisted verbatim, carried as text). -/
inductive Stmt : Type where
  | exprStmt (e : Expr) (semi : Bool)
  | other (text : Str)

end

def attrsPre (attrs : Str) (s : Str) : Str :=
  if attrs = [] then s else attrs ++ [' '] ++ s

mutual

/-- Rendered token text of an expression, modelling
`expr.to_token_stream().to_string()` (tokens separated by spaces). -/
def exprString : Expr → Str
  | .array t => t
  | .assign t _ => t
  | .asyncE t => t
  | .awaitE t => t
  | .binary attrs l op r =>
    attrsPre attrs (exprString l ++ [' '] ++ op ++ [' '] ++ exprString r)
  | .blockE b => blockString b
  | .breakE t => t
  | .call attrs f args =>
    attrsPre attrs (exprString f ++ [' ', '('] ++ exprListString args ++ [')'])
  | .cast inner ty => exprString inner ++ " as ".toList ++ ty
  | .closure t => t
  | .constE b => "const ".toList ++ blockString b
  | .continueE t => t
  | .field t => t
  | .forLoop t => t
  | .group inner => exprString inner
  | .ifE attrs c tb eb =>
    attrsPre attrs ("if ".toList ++ exprString c ++ [' '] ++ blockString tb ++
      (match eb with
       | none => []
       | some el => " else ".toList ++ exprString el))
  | .indexE attrs o i => attrsPre attrs (exprString o ++ [' ', '['] ++ exprString i ++ [']'])
  | .infer t => t
  | .letE t => t
  | .lit t => t
  | .loopE t => t
  | .macroE t => t
  | .matchE attrs s arms =>
    attrsPre attrs ("match ".toList ++ exprString s ++ [' ', lbrace, ' '] ++
      armsString arms ++ [' ', rbrace])
  | .methodCall attrs r m tf args =>
    attrsPre attrs (exprString r ++ " . ".toList ++ m ++ tf ++ [' ', '('] ++
      exprListString args ++ [')'])
  | .paren inner => ['('] ++ exprString inner ++ [')']
  | .path t => t
  | .range t => t
  | .reference t => t
  | .repeatE t => t
  | .returnE t => t
  | .structE t => t
  | .tryE t => t
  | .tuple t => t
  | .unary attrs op a => attrsPre attrs (op ++ [' '] ++ exprString a)
  | .unsafeE attrs b => attrsPre attrs ("unsafe ".toList ++ blockString b)
  | .verbatim t => t
  | .whileE t => t

def exprListString : ExprList → Str
  | .nil => []
  | .cons e rest =>
    exprString e ++
      (match rest with
       | .nil => []
       | .cons _ _ => " , ".toList) ++ exprListString rest

def armsString : Arms → Str
  | .nil => []
  | .cons attrs pat body rest =>
    attrsPre attrs (pat ++ " => ".toList ++ exprString body) ++
      (match rest with
       | .nil => []
       | .cons _ _ _ _ => " , ".toList) ++ armsString rest

def blockString : Blk → Str
  | .mk stmts => [lbrace, ' '] ++ stmtListString stmts ++ [' ', rbrace]

def stmtListString : StmtList → Str
  | .nil => []
  | .cons s rest =>
    stmtString s ++
      (match rest with
       | .nil => []
       | .cons _ _ => [' ']) ++ stmtListString rest

def stmtString : Stmt → Str
  | .exprStmt e semi => exprString e ++ (if semi then " ;".toList else [])
  | .other t => t

end

/-- `printable_expr_string`: rendered text with braces escaped for use inside
a format string. -/
def printable_expr_string (e : Expr) : Str := escapeBraces (exprString e)

/-! ## Generated-code model -/

/-- How the rewritten predicate refers to a captured operand:
either the original expression used directly (`syn::Expr::Path` case of
`add_var`), or a wrapped variable `__one_assert_{name}_{id}.0`. -/
inductive Access : Type where
  | direct (e : Expr)
  | wrapA (id : Nat) (name : Str)

/-- One statement of the generated setup code. -/
inductive SetupStmt : Type where
  | structDef
  | letWrap (id : Nat) (name : Str) (e : Expr)
  | letFmt (id : Nat) (name : Str) (acc : Access)
  | hoisted (s : Stmt)

/-- One entry of `dynamic_args`: either `::std::format_args!(#format)` or a
debug-string variable `__one_assert_{name}_{id}`. -/
inductive Arg : Type where
  | fmtArgs (format : Str)
  | strVar (id : Nat) (name : Str)

/-- The rewritten `assert_condition`. -/
inductive Cond : Type where
  | orig (e : Expr)
  | binC (attrs : Str) (l : Access) (op : Str) (r : Access)
  | callC (attrs : Str) (func : Expr) (args : List Access)
  | methodC (attrs : Str) (obj : Access) (method : Str) (turbofish : Str) (args : List Access)
  | indexC (attrs : Str) (obj : Expr) (idx : Access)
  | unaryC (attrs : Str) (op : Str) (a : Access)

mutual

/-- Structural model of the generated replacement `TokenStream`; each
constructor corresponds to one `quote!` template in the source. -/
inductive Output : Type where
  /-- `{ #setup if #cond {} else { panic!(#msg, #args) } }` -/
  | check (uns : Bool) (setup : List SetupStmt) (cond : Cond) (msg : Str) (args : List Arg)
  /-- `{ #setup if #cond { #thenB } else #elseB }` -/
  | ifOut (uns : Bool) (setup : List SetupStmt) (attrs : Str) (cond : Access)
      (thenB : Output) (elseB : Output)
  /-- `{ #setup match #scrut { #arms } }` -/
  | matchOut (uns : Bool) (setup : List SetupStmt) (attrs : Str) (scrut : Access)
      (arms : OutArms)
  /-- `{ #setup if #orig {} }` (block with no trailing expression) -/
  | blockPass (uns : Bool) (setup : List SetupStmt) (orig : StmtList)
  /-- an `if` without `else` returned untouched by `recurse_else_branches` -/
  | rawElse (e : Expr)
  /-- `{ #body }` wrapper produced by `recurse_else_branches` for `else` blocks -/
  | braced (inner : Output)
  /-- output of `assert_true_flavor()` -/
  | trueFlavor
  /-- `::std::panic!("surprisingly, `false` did not evaluate to true")` -/
  | falsePanic

inductive OutArms : Type where
  | nil
  | cons (attrs : Str) (pat : Str) (body : Output) (rest : OutArms)

end

/-- Compile-error target span: a whole expression or a single token. -/
inductive ErrTarget : Type where
  | exprT (e : Expr)
  | tokenT (t : Nat)

/-- A structured compile error (`Error::err_spanned(target, msg)`). -/
structure Err : Type where
  msg : Str
  target : ErrTarget

/-! ## `State` and its methods -/

structure State : Type where
  setup : List SetupStmt
  format_message : Str
  dynamic_args : List Arg
  pending_vars : List (Str × Arg)
  possibly_unsafe_flag : Bool
  next_ident_id : Nat

def State.new : State := ⟨[], [], [], [], false, 0⟩

/-- `State::fork`: fresh setup, shared message/args/variables, reset `unsafe`
qualifier, shared identifier counter. -/
def State.fork (s : State) : State :=
  ⟨[], s.format_message, s.dynamic_args, s.pending_vars, false, s.next_ident_id⟩

/-- `State::create_ident`: allocates the next identifier number for `name`;
the rendered identifier is `__one_assert_{name}_{id}`. -/
def State.create_ident (s : State) (name : Str) : (Str × Nat) × State :=
  ((name, s.next_ident_id), { s with next_ident_id := s.next_ident_id + 1 })

def isPath : Expr → Bool
  | .path _ => true
  | _ => false

def strSuffix : Str := "_str".toList

/-- `State::add_var`: capture `e` under base name `identifier`, to be shown as
`display`.  A bare path is used directly and only its debug string is bound;
any other expression is moved into a `__OneAssertWrapper` binding first. -/
def State.add_var (st : State) (e : Expr) (identifier : Str) (display : Str) :
    Access × State :=
  let ((sn, sid), st1) := st.create_ident (identifier ++ strSuffix)
  if isPath e then
    let acc := Access.direct e
    (acc,
      { st1 with
        setup := st1.setup ++ [.letFmt sid sn acc]
        pending_vars := st1.pending_vars ++ [(display, .strVar sid sn)] })
  else
    let ((vn, vid), st2) := st1.create_ident identifier
    let acc := Access.wrapA vid vn
    (acc,
      { st2 with
        setup := st2.setup ++ [.letWrap vid vn e, .letFmt sid sn acc]
        pending_vars := st2.pending_vars ++ [(display, .strVar sid sn)] })

def varLinePre : Str := "\n    ".toList

def varLineSep : Str := ": \x7b\x7d".toList

def renderVarLine (w : Nat) (name : Str) : Str := varLinePre ++ padTo w name ++ varLineSep

def maxNameLen (vs : List (Str × Arg)) : Nat := (vs.map (fun p => p.1.length)).foldr max 0

/-- `State::resolve_variables`: flush all pending variables into the format
message as right-aligned `name: \x7b\x7d` lines and push their debug-string
arguments, in order. -/
def State.resolve_variables (st : State) : State :=
  let w := maxNameLen st.pending_vars
  { st with
    format_message := st.format_message ++ concatMap (fun p => renderVarLine w p.1) st.pending_vars
    dynamic_args := st.dynamic_args ++ st.pending_vars.map Prod.snd
    pending_vars := [] }

def causePre : Str := "\n  caused by: ".toList

/-- `State::add_cause`. -/
def State.add_cause (st : State) (cause : Str) : State :=
  { st with format_message := st.format_message ++ causePre ++ cause }

/-! ## The classifier / rewriter -/

def msgAssign : Str :=
  "Expected a boolean expression, found an assignment. Did you intend to compare with `==`?".toList

def msgAsync : Str :=
  "Expected a boolean expression, found an async block. Did you intend to await a future?".toList

def msgBreak : Str := "Expected a boolean expression, found a break statement".toList

def msgContinue : Str := "Expected a boolean expression, found a continue statement".toList

def msgForLoop : Str := "Expected a boolean expression, found a for loop".toList

def msgLet : Str := "Expected a boolean expression, found a let statement".toList

def msgReturn : Str := "Expected a boolean expression, found a return statement".toList

def msgStruct : Str := "Expected a boolean expression, found a struct literal".toList

def msgWhile : Str := "Expected a boolean expression, found a while loop".toList

def msgElseParse : Str := "parsing error: expected else block or if-else chain".toList

def lhsName : Str := "lhs".toList

def rhsName : Str := "rhs".toList

def leftDisp : Str := "left".toList

def rightDisp : Str := "right".toList

def condName : Str := "condition".toList

def condDisp (condition_str : Str) : Str :=
  "condition `".toList ++ condition_str ++ ['`']

def matchedName : Str := "matched".toList

def matchedDisp : Str := "matched value".toList

def objectName : Str := "object".toList

def indexName : Str := "index".toList

def originalName : Str := "original".toList

def argIdent (i : Nat) : Str := "arg".toList ++ natStr i

def argDisplay (ilen i : Nat) : Str := "arg ".toList ++ padTo ilen (natStr i)

def exprListLen : ExprList → Nat
  | .nil => 0
  | .cons _ rest => exprListLen rest + 1

/-- The argument-capture loop of the `Call` / `MethodCall` arms:
`args.into_iter().enumerate().map(|(i, arg)| state.add_var(arg, ...))`. -/
def capture_args (ilen : Nat) (i : Nat) (args : ExprList) (st : State) :
    List Access × State :=
  match args with
  | .nil => ([], st)
  | .cons a rest =>
    let (acc, st) := st.add_var a (argIdent i) (argDisplay ilen i)
    let (accs, st) := capture_args ilen (i + 1) rest st
    (acc :: accs, st)

/-- The shared tail of all fall-through arms of `eval_expr`:
`state.resolve_variables()` followed by the
`{ #setup if #cond {} else { panic!(..) } }` output template. -/
def finishCheck (st : State) (cond : Cond) : Output :=
  let st := st.resolve_variables
  .check st.possibly_unsafe_flag st.setup cond st.format_message st.dynamic_args

def isLit : Expr → Bool
  | .lit _ => true
  | _ => false

def blockCause (condition_str : Str) : Str :=
  "block return assertion `".toList ++ condition_str ++ "` failed".toList

def matchCause (scrut_str pat : Str) (body : Expr) : Str :=
  "match ".toList ++ scrut_str ++ " entered arm `".toList ++ escapeBraces pat ++
    "` where assertion `".toList ++ printable_expr_string body ++ "` failed".toList

mutual

/-- `eval_expr`: the core classifier / rewriter dispatch. -/
def eval_expr (e : Expr) (st : State) : Except Err Output :=
  match e with
  | .array t => .ok (finishCheck st (.orig (.array t)))
  | .assign t eqTok => .error ⟨msgAssign, .tokenT eqTok⟩
  | .asyncE t => .error ⟨msgAsync, .exprT (.asyncE t)⟩
  | .awaitE t => .ok (finishCheck st (.orig (.awaitE t)))
  | .binary attrs l op r =>
    let (lhs, st) := st.add_var l lhsName leftDisp
    let (rhs, st) := st.add_var r rhsName rightDisp
    .ok (finishCheck st (.binC attrs lhs op rhs))
  | .blockE b => eval_block b st
  | .breakE t => .error ⟨msgBreak, .exprT (.breakE t)⟩
  | .call attrs func args =>
    match args with
    | .nil => .ok (finishCheck st (.orig (.call attrs func .nil)))
    | .cons a rest =>
      let ilen := (natStr (exprListLen (.cons a rest) - 1)).length
      let (accs, st) := capture_args ilen 0 (.cons a rest) st
      .ok (finishCheck st (.callC attrs func accs))
  | .cast inner ty => .ok (finishCheck st (.orig (.cast inner ty)))
  | .closure t => .ok (finishCheck st (.orig (.closure t)))
  | .constE b => eval_block b st
  | .continueE t => .error ⟨msgContinue, .exprT (.continueE t)⟩
  | .field t => .ok (finishCheck st (.orig (.field t)))
  | .forLoop t => .error ⟨msgForLoop, .exprT (.forLoop t)⟩
  | .group inner => eval_expr inner st
  | .ifE attrs cond thenB (some elseB) =>
    let condition_str := printable_expr_string cond
    let (condAcc, st) := st.add_var cond condName (condDisp condition_str)
    match eval_block thenB st.fork with
    | .error err => .error err
    | .ok thenO =>
      match recurse_else_branches elseB st.fork with
      | .error err => .error err
      | .ok elseO =>
        let st := st.resolve_variables
        .ok (.ifOut st.possibly_unsafe_flag st.setup attrs condAcc thenO elseO)
  | .ifE attrs cond thenB none => .ok (finishCheck st (.orig (.ifE attrs cond thenB none)))
  | .indexE attrs obj idx =>
    if isLit idx then .ok (finishCheck st (.orig (.indexE attrs obj idx)))
    else
      let (iAcc, st) := st.add_var idx indexName indexName
      .ok (finishCheck st (.indexC attrs obj iAcc))
  | .infer t => .ok (finishCheck st (.orig (.infer t)))
  | .letE t => .error ⟨msgLet, .exprT (.letE t)⟩
  | .lit t => .ok (finishCheck st (.orig (.lit t)))
  | .loopE t => .ok (finishCheck st (.orig (.loopE t)))
  | .macroE t => .ok (finishCheck st (.orig (.macroE t)))
  | .matchE attrs scrut arms =>
    let scrut_str := printable_expr_string scrut
    let (mAcc, st) := st.add_var scrut matchedName matchedDisp
    let st := st.resolve_variables
    match eval_arms scrut_str arms st with
    | .error err => .error err
    | .ok armsO => .ok (.matchOut st.possibly_unsafe_flag st.setup attrs mAcc armsO)
  | .methodCall attrs recv m tf args =>
    let (obj, st) := st.add_var recv objectName objectName
    let ilen := (natStr (exprListLen args - 1)).length
    let (accs, st) := capture_args ilen 0 args st
    .ok (finishCheck st (.methodC attrs obj m tf accs))
  | .paren inner => eval_expr inner st
  | .path t => .ok (finishCheck st (.orig (.path t)))
  | .range t => .ok (finishCheck st (.orig (.range t)))
  | .reference t => .ok (finishCheck st (.orig (.reference t)))
  | .repeatE t => .ok (finishCheck st (.orig (.repeatE t)))
  | .returnE t => .error ⟨msgReturn, .exprT (.returnE t)⟩
  | .structE t => .error ⟨msgStruct, .exprT (.structE t)⟩
  | .tryE t => .ok (finishCheck st (.orig (.tryE t)))
  | .tuple t => .ok (finishCheck st (.orig (.tuple t)))
  | .unary attrs op a =>
    let (orig, st) := st.add_var a originalName originalName
    .ok (finishCheck st (.unaryC attrs op orig))
  | .unsafeE attrs b => eval_block b { st with possibly_unsafe_flag := true }
  | .verbatim t => .ok (finishCheck st (.orig (.verbatim t)))
  | .whileE t => .error ⟨msgWhile, .exprT (.whileE t)⟩

/-- `eval_block`: resolve pending variables, then either recurse into the
trailing expression (hoisting the leading statements) or pass the whole block
through as `if #original {}`. -/
def eval_block (b : Blk) (st : State) : Except Err Output :=
  let st := st.resolve_variables
  match b with
  | .mk stmts => eval_block_stmts stmts stmts [] st

def eval_block_stmts (orig : StmtList) (rest : StmtList) (lead : List Stmt) (st : State) :
    Except Err Output :=
  match rest with
  | .nil => .ok (.blockPass st.possibly_unsafe_flag st.setup orig)
  | .cons s .nil =>
    match s with
    | .exprStmt e false =>
      let condition_str := printable_expr_string e
      let st := st.add_cause (blockCause condition_str)
      let st := { st with setup := st.setup ++ lead.map SetupStmt.hoisted }
      eval_expr e st
    | s => .ok (.blockPass st.possibly_unsafe_flag st.setup orig)
  | .cons s (.cons s2 r2) => eval_block_stmts orig (.cons s2 r2) (lead ++ [s]) st

/-- `recurse_else_branches`. -/
def recurse_else_branches (branch : Expr) (st : State) : Except Err Output :=
  match branch with
  | .blockE b =>
    match eval_block b st with
    | .error err => .error err
    | .ok body => .ok (.braced body)
  | .ifE attrs cond thenB (some elseB) =>
    let condition_str := printable_expr_string cond
    let (condAcc, st) := st.add_var cond condName (condDisp condition_str)
    match eval_block thenB st.fork with
    | .error err => .error err
    | .ok thenO =>
      match recurse_else_branches elseB st.fork with
      | .error err => .error err
      | .ok elseO =>
        let st := st.resolve_variables
        .ok (.ifOut false st.setup attrs condAcc thenO elseO)
  | .ifE attrs cond thenB none => .ok (.rawElse (.ifE attrs cond thenB none))
  | e => .error ⟨msgElseParse, .exprT e⟩

/-- The per-arm loop of the `Match` arm of `eval_expr`. -/
def eval_arms (scrut_str : Str) (arms : Arms) (st : State) : Except Err OutArms :=
  match arms with
  | .nil => .ok .nil
  | .cons attrs pat body rest =>
    let arm_st := st.fork
    let arm_st := arm_st.add_cause (matchCause scrut_str pat body)
    match eval_expr body arm_st with
    | .error err => .error err
    | .ok o =>
      match eval_arms scrut_str rest st with
      | .error err => .error err
      | .ok restO => .ok (.cons attrs pat o restO)

end

def trueStr : Str := "true".toList

def falseStr : Str := "false".toList

def headerPre : Str := "assertion `".toList

def headerPost : Str := "` failed".toList

def fmtSuffix : Str := ": \x7b\x7d".toList

/-- `assert_internal`: literal fast paths, then initial state setup, then the
classifier. -/
def assert_internal (expr : Expr) (format : Str) : Except Err Output :=
  let expr_str := printable_expr_string expr
  if expr_str = trueStr then .ok .trueFlavor
  else if expr_str = falseStr then .ok .falsePanic
  else
    let st0 : State :=
      { State.new with
        setup := [.structDef]
        format_message := headerPre ++ expr_str ++ headerPost }
    let st1 :=
      if format = [] then st0
      else
        { st0 with
          format_message := st0.format_message ++ fmtSuffix
          dynamic_args := st0.dynamic_args ++ [.fmtArgs format] }
    eval_expr expr st1

/-! ## Runtime semantics of conditions and of the generated code

A pure big-step valuation model: user sub-expressions that the rewriter treats
as opaque get their values from the oracle environment `Env`; operator, call,
indexing and pattern semantics are likewise oracles, so that the original
condition and the rewritten predicate are interpreted by the same rules. -/

inductive Value : Type where
  | bool (b : Bool)
  | int (n : Int)
  | other (tag : Nat)
deriving DecidableEq

structure Env : Type where
  leafVal : Expr → Option Value
  opSem : Str → Value → Value → Option Value
  unSem : Str → Value → Option Value
  callSem : Expr → List Value → Option Value
  methodSem : Str → Value → List Value → Option Value
  indexSem : Value → Value → Option Value
  patMatch : Str → Value → Bool
  fmtDebug : Value → Str
  fmtMsg : Str → Str
  line : Nat

def asBool : Value → Option Bool
  | .bool b => some b
  | _ => none

mutual

/-- Big-step value of a source expression under the oracle valuation. -/
def evalE (E : Env) (e : Expr) : Option Value :=
  match e with
  | .binary _ l op r =>
    match evalE E l with
    | none => none
    | some vl =>
      match evalE E r with
      | none => none
      | some vr => E.opSem op vl vr
  | .unary _ op a =>
    match evalE E a with
    | none => none
    | some v => E.unSem op v
  | .call _ f args =>
    match evalArgsV E args with
    | none => none
    | some vs => E.callSem f vs
  | .methodCall _ recv m tf args =>
    match evalE E recv with
    | none => none
    | some vr =>
      match evalArgsV E args with
      | none => none
      | some vs => E.methodSem (m ++ tf) vr vs
  | .indexE _ o i =>
    match evalE E o with
    | none => none
    | some vo =>
      match evalE E i with
      | none => none
      | some vi => E.indexSem vo vi
  | .paren inner => evalE E inner
  | .group inner => evalE E inner
  | .blockE b => blockVal E b
  | .constE b => blockVal E b
  | .unsafeE _ b => blockVal E b
  | .ifE _ c tb (some el) =>
    match evalE E c with
    | none => none
    | some vc =>
      match asBool vc with
      | none => none
      | some true => blockVal E tb
      | some false => evalE E el
  | .ifE _ _ _ none => none
  | .matchE _ s arms =>
    match evalE E s with
    | none => none
    | some vs => matchVal E vs arms
  | e => E.leafVal e

def evalArgsV (E : Env) (args : ExprList) : Option (List Value) :=
  match args with
  | .nil => some []
  | .cons e rest =>
    match evalE E e with
    | none => none
    | some v =>
      match evalArgsV E rest with
      | none => none
      | some vs => some (v :: vs)

def matchVal (E : Env) (v : Value) (arms : Arms) : Option Value :=
  match arms with
  | .nil => none
  | .cons _ pat body rest =>
    if E.patMatch pat v then evalE E body else matchVal E v rest

def blockVal (E : Env) (b : Blk) : Option Value :=
  match b with
  | .mk stmts => stmtsVal E stmts

/-- Value of a statement list as a block body: the trailing expression without
semicolon, if any (leading statements are effect-free under this model). -/
def stmtsVal (E : Env) (stmts : StmtList) : Option Value :=
  match stmts with
  | .nil => none
  | .cons s .nil =>
    match s with
    | .exprStmt e false => evalE E e
    | _ => none
  | .cons _ (.cons s2 r2) => stmtsVal E (.cons s2 r2)

end

/-- Runtime store of the generated code: wrapper variables and debug strings,
keyed by identifier number (later bindings shadow earlier ones). -/
structure RunSt : Type where
  vals : List (Nat × Value)
  strs : List (Nat × Str)

def RunSt.empty : RunSt := ⟨[], []⟩

def evalAccess (E : Env) (rs : RunSt) : Access → Option Value
  | .direct e => evalE E e
  | .wrapA id _ => rs.vals.lookup id

def execSetup (E : Env) (rs : RunSt) : SetupStmt → Option RunSt
  | .structDef => some rs
  | .letWrap id _ e =>
    match evalE E e with
    | none => none
    | some v => some { rs with vals := (id, v) :: rs.vals }
  | .letFmt id _ acc =>
    match evalAccess E rs acc with
    | none => none
    | some v => some { rs with strs := (id, E.fmtDebug v) :: rs.strs }
  | .hoisted _ => some rs

def execSetups (E : Env) : List SetupStmt → RunSt → Option RunSt
  | [], rs => some rs
  | s :: rest, rs =>
    match execSetup E rs s with
    | none => none
    | some rs => execSetups E rest rs

def evalAccList (E : Env) (rs : RunSt) : List Access → Option (List Value)
  | [] => some []
  | a :: rest =>
    match evalAccess E rs a with
    | none => none
    | some v =>
      match evalAccList E rs rest with
      | none => none
      | some vs => some (v :: vs)

/-- Value of the rewritten `assert_condition`. -/
def evalCond (E : Env) (rs : RunSt) : Cond → Option Value
  | .orig e => evalE E e
  | .binC _ l op r =>
    match evalAccess E rs l with
    | none => none
    | some vl =>
      match evalAccess E rs r with
      | none => none
      | some vr => E.opSem op vl vr
  | .callC _ f accs =>
    match evalAccList E rs accs with
    | none => none
    | some vs => E.callSem f vs
  | .methodC _ o m tf accs =>
    match evalAccess E rs o with
    | none => none
    | some vo =>
      match evalAccList E rs accs with
      | none => none
      | some vs => E.methodSem (m ++ tf) vo vs
  | .indexC _ obj idx =>
    match evalE E obj with
    | none => none
    | some vo =>
      match evalAccess E rs idx with
      | none => none
      | some vi => E.indexSem vo vi
  | .unaryC _ op a =>
    match evalAccess E rs a with
    | none => none
    | some v => E.unSem op v

def argVal (E : Env) (rs : RunSt) : Arg → Option Str
  | .fmtArgs f => some (E.fmtMsg f)
  | .strVar id _ => rs.strs.lookup id

def argVals (E : Env) (rs : RunSt) : List Arg → Option (List Str)
  | [] => some []
  | a :: rest =>
    match argVal E rs a with
    | none => none
    | some v =>
      match argVals E rs rest with
      | none => none
      | some vs => some (v :: vs)

/-- Result of running the generated code: no panic, a panic with a rendered
message, or stuck (a state the pure model cannot give meaning to, e.g. a
host-compiler type error). -/
inductive Res : Type where
  | ok
  | fails (msg : Str)
  | stuck
deriving DecidableEq

def flavorNice : Str := "You actually used `assert!(true)`? Nice.".toList

def flavorCongrats1 : Str := "Congratulations! You are the ".toList

def flavorCongrats2 : Str := "th person to use `assert!(true)`! You win a free panic!".toList

def flavorMessages : List Str :=
  [ "Ha! Did you think `assert!(true)` would do nothing? Fool!".toList,
    "assertion `true` failed:\n  left: tr\n right: ue".toList,
    "assertion `true` failed: `true` did not evaluate to true".toList,
    "assertion `true` failed: `true` did not evaluate to true...? Huh? What? ð\u009f¤\u0094".toList,
    "Undefined reference to `true`. Did you mean `false`?".toList,
    "assertion `true` failed: `true` did not evaluate to true. What a surprise!".toList ]

/-- Runtime behaviour of `assert_true_flavor()`'s generated code as a function
of `line!()`. -/
def runTrueFlavor (line : Nat) : Res :=
  if line % 100 = 69 then .fails flavorNice
  else if line % 100 = 0 then .fails (flavorCongrats1 ++ natStr line ++ flavorCongrats2)
  else if line % 10 = 0 then .ok
  else .fails (flavorMessages.getD (line % 6) [])

def falseMsg : Str := "surprisingly, `false` did not evaluate to true".toList

mutual

/-- Runtime behaviour of the generated replacement code. -/
def runOutput (E : Env) (out : Output) (rs : RunSt) : Res :=
  match out with
  | .check _ setup cond msg args =>
    match execSetups E setup rs with
    | none => .stuck
    | some rs =>
      match evalCond E rs cond with
      | none => .stuck
      | some v =>
        match asBool v with
        | none => .stuck
        | some true => .ok
        | some false =>
          match argVals E rs args with
          | none => .stuck
          | some vals => .fails (render msg vals)
  | .ifOut _ setup _ condAcc thenB elseB =>
    match execSetups E setup rs with
    | none => .stuck
    | some rs =>
      match evalAccess E rs condAcc with
      | none => .stuck
      | some v =>
        match asBool v with
        | none => .stuck
        | some true => runOutput E thenB rs
        | some false => runOutput E elseB rs
  | .matchOut _ setup _ scrutAcc arms =>
    match execSetups E setup rs with
    | none => .stuck
    | some rs =>
      match evalAccess E rs scrutAcc with
      | none => .stuck
      | some v => runArms E v arms rs
  | .blockPass _ setup orig =>
    match execSetups E setup rs with
    | none => .stuck
    | some rs =>
      match stmtsVal E orig with
      | none => .stuck
      | some v =>
        match asBool v with
        | none => .stuck
        | some _ => .ok
  | .rawElse e =>
    match evalE E e with
    | none => .stuck
    | some _ => .ok
  | .braced inner => runOutput E inner rs
  | .trueFlavor => runTrueFlavor E.line
  | .falsePanic => .fails falseMsg

def runArms (E : Env) (v : Value) (arms : OutArms) (rs : RunSt) : Res :=
  match arms with
  | .nil => .stuck
  | .cons _ pat body rest =>
    if E.patMatch pat v then runOutput E body rs else runArms E v rest rs

end

/-! ## Observation functions on the generated code -/

/-- Synthetic identifiers `(name, id)` bound by a setup sequence, in order.
The rendered identifier of `(name, id)` is `__one_assert_{name}_{id}`. -/
def setupIdents : List SetupStmt → List (Str × Nat)
  | [] => []
  | .structDef :: r => setupIdents r
  | .hoisted _ :: r => setupIdents r
  | .letWrap id n _ :: r => (n, id) :: setupIdents r
  | .letFmt id n _ :: r => (n, id) :: setupIdents r

mutual

/-- All synthetic identifiers bound anywhere in the generated code. -/
def allIdents : Output → List (Str × Nat)
  | .check _ s _ _ _ => setupIdents s
  | .ifOut _ s _ _ t e => setupIdents s ++ allIdents t ++ allIdents e
  | .matchOut _ s _ _ arms => setupIdents s ++ allIdentsArms arms
  | .blockPass _ s _ => setupIdents s
  | .braced o => allIdents o
  | .rawElse _ => []
  | .trueFlavor => []
  | .falsePanic => []

def allIdentsArms : OutArms → List (Str × Nat)
  | .nil => []
  | .cons _ _ b r => allIdents b ++ allIdentsArms r

end

mutual

/-- The identifier lists of all lexical scope chains of the generated code:
one list per leaf, each being all identifiers in scope on the way there. -/
def identPaths : Output → List (List (Str × Nat))
  | .check _ s _ _ _ => [setupIdents s]
  | .ifOut _ s _ _ t e =>
    (identPaths t ++ identPaths e).map (fun p => setupIdents s ++ p)
  | .matchOut _ s _ _ arms =>
    (identPathsArms arms).map (fun p => setupIdents s ++ p)
  | .blockPass _ s _ => [setupIdents s]
  | .braced o => identPaths o
  | .rawElse _ => [[]]
  | .trueFlavor => [[]]
  | .falsePanic => [[]]

def identPathsArms : OutArms → List (List (Str × Nat))
  | .nil => []
  | .cons _ _ b r => identPaths b ++ identPathsArms r

end

/-- Source expressions read when evaluating an operand access. -/
def accSites : Access → List Expr
  | .direct e => [e]
  | .wrapA _ _ => []

def accListSites : List Access → List Expr
  | [] => []
  | a :: r => accSites a ++ accListSites r

/-- Source expressions evaluated, in order, when the setup code runs. -/
def setupSites : List SetupStmt → List Expr
  | [] => []
  | .structDef :: r => setupSites r
  | .letWrap _ _ e :: r => e :: setupSites r
  | .letFmt _ _ acc :: r => accSites acc ++ setupSites r
  | .hoisted _ :: r => setupSites r

/-- Source expressions evaluated, in order, when the rewritten predicate runs. -/
def condSites : Cond → List Expr
  | .orig e => [e]
  | .binC _ l _ r => accSites l ++ accSites r
  | .callC _ f accs => f :: accListSites accs
  | .methodC _ o _ _ accs => accSites o ++ accListSites accs
  | .indexC _ obj idx => obj :: accSites idx
  | .unaryC _ _ a => accSites a

/-- Source-expression evaluation sites of a straight-line check output. -/
def evalSites : Output → List Expr
  | .check _ s c _ _ => setupSites s ++ condSites c
  | _ => []

/-- `letWrap` evaluation sites only: the places where a possibly-effectful
operand expression is computed (reading a bare path is effect-free). -/
def wrapSites : List SetupStmt → List Expr
  | [] => []
  | .letWrap _ _ e :: r => e :: wrapSites r
  | _ :: r => wrapSites r

mutual

/-- Decidable form of the C2 invariant over the whole generated output: every
panic site's format string has exactly as many placeholders as it has
dynamic arguments. -/
def balancedB : Output → Bool
  | .check _ _ _ msg args => countPH msg == args.length
  | .ifOut _ _ _ _ t e => balancedB t && balancedB e
  | .matchOut _ _ _ _ arms => balancedArmsB arms
  | .braced o => balancedB o
  | .blockPass _ _ _ => true
  | .rawElse _ => true
  | .trueFlavor => true
  | .falsePanic => true

def balancedArmsB : OutArms → Bool
  | .nil => true
  | .cons _ _ b r => balancedB b && balancedArmsB r

end

/-! ## String lemmas -/

/-- Characterwise brace-doubling; equal to `escapeBraces` (proved below) but
easier to reason about. -/
def dub : Str → Str
  | [] => []
  | c :: r =>
    (if c = lbrace then [lbrace, lbrace]
     else if c = rbrace then [rbrace, rbrace]
     else [c]) ++ dub r

theorem replaceChar_append (t : Char) (r a b : Str) :
    replaceChar t r (a ++ b) = replaceChar t r a ++ replaceChar t r b := by
  induction a with
  | nil => rfl
  | cons c cs ih => simp [replaceChar, ih]

theorem escapeBraces_eq_dub (s : Str) : escapeBraces s = dub s := by
  induction s with
  | nil => rfl
  | cons c cs ih =>
    unfold escapeBraces at ih ⊢
    by_cases h1 : c = lbrace
    · subst h1
      have e1 : replaceChar lbrace [lbrace, lbrace] (lbrace :: cs)
          = [lbrace, lbrace] ++ replaceChar lbrace [lbrace, lbrace] cs := rfl
      rw [e1, replaceChar_append, ih]
      rfl
    · by_cases h2 : c = rbrace
      · subst h2
        have e1 : replaceChar lbrace [lbrace, lbrace] (rbrace :: cs)
            = [rbrace] ++ replaceChar lbrace [lbrace, lbrace] cs := by
          simp [replaceChar, h1]
        rw [e1, replaceChar_append, ih]
        rfl
      · have e1 : replaceChar lbrace [lbrace, lbrace] (c :: cs)
            = [c] ++ replaceChar lbrace [lbrace, lbrace] cs := by
          simp [replaceChar, h1]
        have e2 : replaceChar rbrace [rbrace, rbrace] [c] = [c] := by
          simp [replaceChar, h2]
        rw [e1, replaceChar_append, ih, e2]
        simp [dub, h1, h2]

def noBrace (s : Str) : Prop := ∀ c ∈ s, c ≠ lbrace ∧ c ≠ rbrace

/-- The first character, if any, is not a brace. -/
def headOk : Str → Prop
  | [] => True
  | c :: _ => c ≠ lbrace ∧ c ≠ rbrace

theorem countPH_ll (rest : Str) : countPH (lbrace :: lbrace :: rest) = countPH rest := rfl

theorem countPH_lr (rest : Str) : countPH (lbrace :: rbrace :: rest) = countPH rest + 1 := rfl

theorem countPH_rr (rest : Str) : countPH (rbrace :: rbrace :: rest) = countPH rest := rfl

theorem countPH_cons_nonbrace {c : Char} (h1 : c ≠ lbrace) (h2 : c ≠ rbrace) (l : Str) :
    countPH (c :: l) = countPH l := by
  cases l with
  | nil => rfl
  | cons b r =>
    have n1 : ¬ (c = lbrace ∧ b = lbrace) := fun hh => h1 hh.1
    have n2 : ¬ (c = lbrace ∧ b = rbrace) := fun hh => h1 hh.1
    have n3 : ¬ (c = rbrace ∧ b = rbrace) := fun hh => h2 hh.1
    simp only [countPH, if_neg n1, if_neg n2, if_neg n3]

theorem countPH_noBrace_append {s : Str} (h : noBrace s) (t : Str) :
    countPH (s ++ t) = countPH t := by
  induction s with
  | nil => rfl
  | cons c cs ih =>
    have hc := h c (List.mem_cons_self _ _)
    have hcs : noBrace cs := fun x hx => h x (List.mem_cons_of_mem _ hx)
    simp only [List.cons_append]
    rw [countPH_cons_nonbrace hc.1 hc.2, ih hcs]

theorem countPH_noBrace {s : Str} (h : noBrace s) : countPH s = 0 := by
  have := countPH_noBrace_append h []
  simpa using this

theorem countPH_dub_append (s t : Str) : countPH (dub s ++ t) = countPH t := by
  induction s with
  | nil => rfl
  | cons c cs ih =>
    by_cases h1 : c = lbrace
    · subst h1
      show countPH (([lbrace, lbrace] ++ dub cs) ++ t) = countPH t
      rw [List.append_assoc]
      rw [show ([lbrace, lbrace] : Str) ++ (dub cs ++ t) = lbrace :: lbrace :: (dub cs ++ t)
        from rfl]
      rw [countPH_ll]; exact ih
    · by_cases h2 : c = rbrace
      · subst h2
        show countPH (([rbrace, rbrace] ++ dub cs) ++ t) = countPH t
        rw [List.append_assoc]
        rw [show ([rbrace, rbrace] : Str) ++ (dub cs ++ t) = rbrace :: rbrace :: (dub cs ++ t)
          from rfl]
        rw [countPH_rr]; exact ih
      · have e1 : dub (c :: cs) = [c] ++ dub cs := by simp [dub, h1, h2]
        rw [e1, List.append_assoc]
        rw [show ([c] : Str) ++ (dub cs ++ t) = c :: (dub cs ++ t) from rfl]
        rw [countPH_cons_nonbrace h1 h2]; exact ih

theorem countPH_dub (s : Str) : countPH (dub s) = 0 := by
  have := countPH_dub_append s []
  simpa using this

theorem countPH_append_headOk (s t : Str) (h : headOk t) :
    countPH (s ++ t) = countPH s + countPH t := by
  induction s using countPH.induct with
  | case1 => simp [countPH]
  | case2 c =>
    cases t with
    | nil => simp [countPH]
    | cons d t' =>
      have hd : d ≠ lbrace ∧ d ≠ rbrace := h
      have n1 : ¬ (c = lbrace ∧ d = lbrace) := fun hh => hd.1 hh.2
      have n2 : ¬ (c = lbrace ∧ d = rbrace) := fun hh => hd.2 hh.2
      have n3 : ¬ (c = rbrace ∧ d = rbrace) := fun hh => hd.2 hh.2
      have e1 : countPH (c :: d :: t') = countPH (d :: t') := by
        simp only [countPH, if_neg n1, if_neg n2, if_neg n3]
      simp only [List.singleton_append, e1]
      rw [show countPH [c] = 0 from rfl]
      omega
  | case3 a b rest h1 ih =>
    obtain ⟨ha, hb⟩ := h1
    subst ha; subst hb
    simp only [List.cons_append]
    rw [countPH_ll, countPH_ll, ih]
  | case4 a b rest h1 h2 ih =>
    obtain ⟨ha, hb⟩ := h2
    subst ha; subst hb
    simp only [List.cons_append]
    rw [countPH_lr, countPH_lr, ih]
    omega
  | case5 a b rest h1 h2 h3 ih =>
    obtain ⟨ha, hb⟩ := h3
    subst ha; subst hb
    simp only [List.cons_append]
    rw [countPH_rr, countPH_rr, ih]
  | case6 a b rest h1 h2 h3 ih =>
    simp only [List.cons_append]
    rw [show countPH (a :: b :: (rest ++ t)) = countPH (b :: (rest ++ t)) by
          simp only [countPH, if_neg h1, if_neg h2, if_neg h3],
        show countPH (a :: b :: rest) = countPH (b :: rest) by
          simp only [countPH, if_neg h1, if_neg h2, if_neg h3]]
    rw [show (b :: rest) ++ t = b :: (rest ++ t) from rfl] at ih
    exact ih

theorem render_cons_nonbrace {c : Char} (h1 : c ≠ lbrace) (h2 : c ≠ rbrace) (l : Str)
    (vs : List Str) : render (c :: l) vs = c :: render l vs := by
  cases l with
  | nil => rfl
  | cons b r =>
    have n1 : ¬ (c = lbrace ∧ b = lbrace) := fun hh => h1 hh.1
    have n2 : ¬ (c = lbrace ∧ b = rbrace) := fun hh => h1 hh.1
    have n3 : ¬ (c = rbrace ∧ b = rbrace) := fun hh => h2 hh.1
    simp only [render, if_neg n1, if_neg n2, if_neg n3]

theorem render_noBrace_append {s : Str} (h : noBrace s) (t : Str) (vs : List Str) :
    render (s ++ t) vs = s ++ render t vs := by
  induction s with
  | nil => rfl
  | cons c cs ih =>
    have hc := h c (List.mem_cons_self _ _)
    have hcs : noBrace cs := fun x hx => h x (List.mem_cons_of_mem _ hx)
    simp only [List.cons_append]
    rw [render_cons_nonbrace hc.1 hc.2, ih hcs]

theorem render_dub_append (s t : Str) (vs : List Str) :
    render (dub s ++ t) vs = s ++ render t vs := by
  induction s with
  | nil => rfl
  | cons c cs ih =>
    by_cases h1 : c = lbrace
    · subst h1
      show render (([lbrace, lbrace] ++ dub cs) ++ t) vs = _
      rw [List.append_assoc]
      rw [show ([lbrace, lbrace] : Str) ++ (dub cs ++ t) = lbrace :: lbrace :: (dub cs ++ t)
        from rfl]
      rw [show render (lbrace :: lbrace :: (dub cs ++ t)) vs
            = lbrace :: render (dub cs ++ t) vs from rfl]
      rw [ih]
      rfl
    · by_cases h2 : c = rbrace
      · subst h2
        show render (([rbrace, rbrace] ++ dub cs) ++ t) vs = _
        rw [List.append_assoc]
        rw [show ([rbrace, rbrace] : Str) ++ (dub cs ++ t) = rbrace :: rbrace :: (dub cs ++ t)
          from rfl]
        rw [show render (rbrace :: rbrace :: (dub cs ++ t)) vs
              = rbrace :: render (dub cs ++ t) vs from rfl]
        rw [ih]
        rfl
      · have e1 : dub (c :: cs) = [c] ++ dub cs := by simp [dub, h1, h2]
        rw [e1, List.append_assoc]
        rw [show ([c] : Str) ++ (dub cs ++ t) = c :: (dub cs ++ t) from rfl]
        rw [render_cons_nonbrace h1 h2, ih]
        rfl

theorem render_ph (rest : Str) (v : Str) (vs : List Str) :
    render (lbrace :: rbrace :: rest) (v :: vs) = v ++ render rest vs := rfl

theorem countSubstr_cons_ne {c : Char} {nr : Str} {a : Char} (h : a ≠ c) (rest : Str) :
    countSubstr (c :: nr) (a :: rest) = countSubstr (c :: nr) rest := by
  have : isPrefixAt (c :: nr) (a :: rest) = false := by
    have hca : ¬ c = a := fun hh => h hh.symm
    simp [isPrefixAt, hca]
  simp [countSubstr, this]

theorem countSubstr_append_headDisjoint {c : Char} {nr : Str} {A : Str}
    (h : ∀ a ∈ A, a ≠ c) (B : Str) :
    countSubstr (c :: nr) (A ++ B) = countSubstr (c :: nr) B := by
  induction A with
  | nil => rfl
  | cons a as ih =>
    have ha := h a (List.mem_cons_self _ _)
    have has : ∀ x ∈ as, x ≠ c := fun x hx => h x (List.mem_cons_of_mem _ hx)
    simp only [List.cons_append]
    rw [countSubstr_cons_ne ha, ih has]

theorem mem_dub {c : Char} {s : Str} (h : c ∈ dub s) : c ∈ s := by
  induction s with
  | nil => simp [dub] at h
  | cons a as ih =>
    simp only [dub] at h
    rcases List.mem_append.1 h with h1 | h2
    · by_cases e1 : a = lbrace
      · subst e1; simp at h1; simp [h1]
      · by_cases e2 : a = rbrace
        · subst e2; simp [e1] at h1; simp [h1]
        · simp [e1, e2] at h1; simp [h1]
    · exact List.mem_cons_of_mem _ (ih h2)

theorem digitChar_spec (k : Nat) :
    digitChar k ≠ lbrace ∧ digitChar k ≠ rbrace ∧ digitChar k ≠ '\n' ∧ digitChar k ≠ ' ' := by
  unfold digitChar
  split <;> refine ⟨by decide, by decide, by decide, by decide⟩

theorem mem_natStrAux {c : Char} : ∀ fuel n, c ∈ natStrAux fuel n → ∃ k, c = digitChar k := by
  intro fuel
  induction fuel with
  | zero => intro n h; simp [natStrAux] at h
  | succ f ih =>
    intro n h
    simp only [natStrAux] at h
    by_cases hn : n < 10
    · rw [if_pos hn] at h
      simp at h
      exact ⟨n, h⟩
    · rw [if_neg hn] at h
      rcases List.mem_append.1 h with h1 | h2
      · exact ih _ h1
      · simp at h2
        exact ⟨n % 10, h2⟩

theorem mem_natStr {c : Char} {n : Nat} (h : c ∈ natStr n) : ∃ k, c = digitChar k :=
  mem_natStrAux _ _ h

theorem noBrace_natStr (n : Nat) : noBrace (natStr n) := by
  intro c hc
  obtain ⟨k, rfl⟩ := mem_natStr hc
  exact ⟨(digitChar_spec k).1, (digitChar_spec k).2.1⟩

theorem noBrace_append {a b : Str} (ha : noBrace a) (hb : noBrace b) : noBrace (a ++ b) := by
  intro c hc
  rcases List.mem_append.1 hc with h | h
  · exact ha c h
  · exact hb c h

theorem noBrace_replicate (n : Nat) : noBrace (List.replicate n ' ') := by
  intro c hc
  rw [List.eq_of_mem_replicate hc]
  exact ⟨by decide, by decide⟩

theorem headOk_cons {c : Char} (h1 : c ≠ lbrace) (h2 : c ≠ rbrace) (l : Str) :
    headOk (c :: l) := ⟨h1, h2⟩

/-! ## `State` operation lemmas -/

theorem add_var_path (st : State) (t idn disp : Str) :
    st.add_var (.path t) idn disp =
      (Access.direct (.path t),
       { st with
          setup := st.setup ++ [.letFmt st.next_ident_id (idn ++ strSuffix) (.direct (.path t))]
          pending_vars :=
            st.pending_vars ++ [(disp, .strVar st.next_ident_id (idn ++ strSuffix))]
          next_ident_id := st.next_ident_id + 1 }) := rfl

theorem add_var_not_path (st : State) {e : Expr} (h : isPath e = false) (idn disp : Str) :
    st.add_var e idn disp =
      (Access.wrapA (st.next_ident_id + 1) idn,
       { st with
          setup := st.setup ++
            [.letWrap (st.next_ident_id + 1) idn e,
             .letFmt st.next_ident_id (idn ++ strSuffix)
               (.wrapA (st.next_ident_id + 1) idn)]
          pending_vars :=
            st.pending_vars ++ [(disp, .strVar st.next_ident_id (idn ++ strSuffix))]
          next_ident_id := st.next_ident_id + 2 }) := by
  unfold State.add_var State.create_ident
  simp [h]

/-- The state invariant behind claim C2: the format message has exactly one
placeholder per dynamic argument, and no pending display name contributes
placeholders. -/
def StInv (st : State) : Prop :=
  countPH st.format_message = st.dynamic_args.length ∧
    ∀ p ∈ st.pending_vars, countPH p.1 = 0

theorem isPath_iff {e : Expr} : isPath e = true ↔ ∃ t, e = .path t := by
  cases e <;> simp [isPath]

theorem noBrace_varLinePre : noBrace varLinePre := by
  unfold noBrace varLinePre
  decide

theorem headOk_varLineSep : headOk varLineSep := ⟨by decide, by decide⟩

theorem countPH_varLineSep : countPH varLineSep = 1 := rfl

theorem countPH_renderVarLine (w : Nat) {name : Str} (h : countPH name = 0) :
    countPH (renderVarLine w name) = 1 := by
  unfold renderVarLine padTo
  rw [List.append_assoc, List.append_assoc, countPH_noBrace_append noBrace_varLinePre,
    countPH_noBrace_append (noBrace_replicate _),
    countPH_append_headOk _ _ headOk_varLineSep, h, countPH_varLineSep]

theorem headOk_renderVarLine (w : Nat) (name : Str) : headOk (renderVarLine w name) :=
  ⟨by decide, by decide⟩

theorem countPH_var_block {vars : List (Str × Arg)} (w : Nat)
    (h : ∀ p ∈ vars, countPH p.1 = 0) :
    ∀ msg : Str, countPH (msg ++ concatMap (fun p => renderVarLine w p.1) vars)
      = countPH msg + vars.length := by
  induction vars with
  | nil => intro msg; simp [concatMap]
  | cons p ps ih =>
    intro msg
    have hp := h p (List.mem_cons_self _ _)
    have hps : ∀ q ∈ ps, countPH q.1 = 0 := fun q hq => h q (List.mem_cons_of_mem _ hq)
    simp only [concatMap]
    rw [show msg ++ (renderVarLine w p.1 ++ concatMap (fun p => renderVarLine w p.1) ps)
          = (msg ++ renderVarLine w p.1) ++ concatMap (fun p => renderVarLine w p.1) ps by
        simp]
    rw [ih hps, countPH_append_headOk _ _ (headOk_renderVarLine _ _), countPH_renderVarLine _ hp]
    simp [List.length_cons]
    omega

theorem StInv_resolve {st : State} (h : StInv st) : StInv st.resolve_variables := by
  obtain ⟨h1, h2⟩ := h
  constructor
  · show countPH (st.format_message ++ _) = _
    rw [countPH_var_block _ h2, h1]
    simp [State.resolve_variables]
  · intro p hp
    simp [State.resolve_variables] at hp

theorem StInv_add_var {st : State} (h : StInv st) (e : Expr) (idn : Str) {disp : Str}
    (hd : countPH disp = 0) : StInv (st.add_var e idn disp).2 := by
  by_cases hp : isPath e = true
  · obtain ⟨t, rfl⟩ := isPath_iff.1 hp
    rw [add_var_path]
    refine ⟨h.1, ?_⟩
    intro p hp'
    rcases List.mem_append.1 hp' with h' | h'
    · exact h.2 p h'
    · simp at h'
      subst h'
      exact hd
  · have hpf : isPath e = false := by simpa using hp
    rw [add_var_not_path st hpf]
    refine ⟨h.1, ?_⟩
    intro p hp'
    rcases List.mem_append.1 hp' with h' | h'
    · exact h.2 p h'
    · simp at h'
      subst h'
      exact hd

theorem noBrace_causePre : noBrace causePre := by
  unfold noBrace causePre
  decide

theorem headOk_causePre_append (cause : Str) : headOk (causePre ++ cause) :=
  ⟨by decide, by decide⟩

theorem StInv_add_cause {st : State} (h : StInv st) {cause : Str}
    (hc : countPH cause = 0) : StInv (st.add_cause cause) := by
  obtain ⟨h1, h2⟩ := h
  constructor
  · show countPH (st.format_message ++ causePre ++ cause) = st.dynamic_args.length
    rw [List.append_assoc, countPH_append_headOk _ _ (headOk_causePre_append cause),
      countPH_noBrace_append noBrace_causePre, hc, h1]
    omega
  · exact h2

theorem StInv_fork {st : State} (h : StInv st) : StInv st.fork := ⟨h.1, h.2⟩

/-! countPH facts for the display names and cause strings -/

theorem countPH_printable (e : Expr) : countPH (printable_expr_string e) = 0 := by
  rw [printable_expr_string, escapeBraces_eq_dub]
  exact countPH_dub _

theorem noBrace_condPre : noBrace ("condition `".toList) := by
  unfold noBrace; decide

theorem noBrace_argPre : noBrace ("arg ".toList) := by
  unfold noBrace; decide

theorem noBrace_blockCausePre : noBrace ("block return assertion `".toList) := by
  unfold noBrace; decide

theorem noBrace_matchCause1 : noBrace ("match ".toList) := by
  unfold noBrace; decide

theorem noBrace_matchCause2 : noBrace (" entered arm `".toList) := by
  unfold noBrace; decide

theorem noBrace_matchCause3 : noBrace ("` where assertion `".toList) := by
  unfold noBrace; decide

theorem countPH_condDisp (e : Expr) : countPH (condDisp (printable_expr_string e)) = 0 := by
  unfold condDisp
  rw [printable_expr_string, escapeBraces_eq_dub]
  simp only [List.append_assoc]
  rw [countPH_noBrace_append noBrace_condPre, countPH_dub_append]
  decide

theorem countPH_argDisplay (ilen i : Nat) : countPH (argDisplay ilen i) = 0 := by
  apply countPH_noBrace
  apply noBrace_append noBrace_argPre
  exact noBrace_append (noBrace_replicate _) (noBrace_natStr _)

theorem countPH_blockCause (e : Expr) : countPH (blockCause (printable_expr_string e)) = 0 := by
  unfold blockCause
  rw [printable_expr_string, escapeBraces_eq_dub]
  simp only [List.append_assoc]
  rw [countPH_noBrace_append noBrace_blockCausePre, countPH_dub_append]
  decide

theorem countPH_matchCause {ss : Str} (hss : countPH ss = 0) (pat : Str) (body : Expr) :
    countPH (matchCause ss pat body) = 0 := by
  unfold matchCause
  rw [printable_expr_string, escapeBraces_eq_dub, escapeBraces_eq_dub]
  simp only [List.append_assoc]
  rw [countPH_noBrace_append noBrace_matchCause1]
  have htail : countPH (" entered arm `".toList ++ (dub pat ++ ("` where assertion `".toList
      ++ (dub (exprString body) ++ "` failed".toList)))) = 0 := by
    rw [countPH_noBrace_append noBrace_matchCause2, countPH_dub_append,
      countPH_noBrace_append noBrace_matchCause3, countPH_dub_append]
    decide
  rw [countPH_append_headOk ss (" entered arm `".toList ++ (dub pat
      ++ ("` where assertion `".toList ++ (dub (exprString body) ++ "` failed".toList))))
      (⟨by decide, by decide⟩ : headOk (" entered arm `".toList ++ (dub pat
        ++ ("` where assertion `".toList ++ (dub (exprString body) ++ "` failed".toList))))),
    hss, htail]

/-! ## Size measure for induction over the transformation -/

mutual

def sizeE : Expr → Nat
  | .binary _ l _ r => sizeE l + sizeE r + 1
  | .blockE b => sizeB b + 1
  | .call _ f args => sizeE f + sizeEL args + 1
  | .cast i _ => sizeE i + 1
  | .constE b => sizeB b + 1
  | .group i => sizeE i + 1
  | .ifE _ c tb eb =>
    sizeE c + sizeB tb + (match eb with | none => 0 | some el => sizeE el) + 1
  | .indexE _ o i => sizeE o + sizeE i + 1
  | .matchE _ s arms => sizeE s + sizeA arms + 1
  | .methodCall _ r _ _ args => sizeE r + sizeEL args + 1
  | .paren i => sizeE i + 1
  | .unary _ _ a => sizeE a + 1
  | .unsafeE _ b => sizeB b + 1
  | _ => 1

def sizeEL : ExprList → Nat
  | .nil => 1
  | .cons e rest => sizeE e + sizeEL rest + 1

def sizeA : Arms → Nat
  | .nil => 1
  | .cons _ _ body rest => sizeE body + sizeA rest + 1

def sizeB : Blk → Nat
  | .mk stmts => sizeSL stmts + 1

def sizeSL : StmtList → Nat
  | .nil => 1
  | .cons s rest => sizeS s + sizeSL rest + 1

def sizeS : Stmt → Nat
  | .exprStmt e _ => sizeE e + 1
  | .other _ => 1

end

theorem errElim {A B : Type} {err : A} {out : B} {C : Prop}
    (h : (Except.error err : Except A B) = Except.ok out) : C :=
  Except.noConfusion h

theorem countPH_leftDisp : countPH leftDisp = 0 := rfl

theorem countPH_rightDisp : countPH rightDisp = 0 := rfl

theorem countPH_objectName : countPH objectName = 0 := rfl

theorem countPH_indexName : countPH indexName = 0 := rfl

theorem countPH_originalName : countPH originalName = 0 := rfl

theorem countPH_matchedDisp : countPH matchedDisp = 0 := rfl

theorem balanced_finishCheck {st : State} (hinv : StInv st) (cond : Cond) :
    balancedB (finishCheck st cond) = true := by
  have h := StInv_resolve hinv
  unfold finishCheck
  simp only [balancedB, beq_iff_eq]
  exact h.1

theorem pass_balanced {st : State} {cond : Cond} {out : Output}
    (hok : (Except.ok (finishCheck st cond) : Except Err Output) = Except.ok out)
    (hinv : StInv st) : balancedB out = true := by
  injection hok with h
  rw [← h]
  exact balanced_finishCheck hinv cond

theorem StInv_capture_args (ilen : Nat) :
    ∀ (args : ExprList) (i : Nat) (st : State), StInv st →
      StInv (capture_args ilen i args st).2
  | .nil, i, st, hinv => hinv
  | .cons a rest, i, st, hinv => by
    rcases h1 : st.add_var a (argIdent i) (argDisplay ilen i) with ⟨acc, st1⟩
    have hst1 : StInv st1 := by
      have := StInv_add_var hinv a (argIdent i) (countPH_argDisplay ilen i)
      rw [h1] at this
      exact this
    have hrec := StInv_capture_args ilen rest (i + 1) st1 hst1
    show StInv (match st.add_var a (argIdent i) (argDisplay ilen i) with
      | (acc, st) => match capture_args ilen (i + 1) rest st with
        | (accs, st) => (acc :: accs, st)).2
    rw [h1]
    rcases h2 : capture_args ilen (i + 1) rest st1 with ⟨accs, st2⟩
    rw [h2] at hrec
    simp only
    rw [h2]
    exact hrec

/-! ## Unfolding equations for the evaluator (projection form) -/

theorem eval_expr_binary (attrs : Str) (l : Expr) (op : Str) (r : Expr) (st : State) :
    eval_expr (.binary attrs l op r) st =
      .ok (finishCheck ((st.add_var l lhsName leftDisp).2.add_var r rhsName rightDisp).2
        (.binC attrs (st.add_var l lhsName leftDisp).1 op
          ((st.add_var l lhsName leftDisp).2.add_var r rhsName rightDisp).1)) := rfl

theorem eval_expr_call_cons (attrs : Str) (f a : Expr) (rest : ExprList) (st : State) :
    eval_expr (.call attrs f (.cons a rest)) st =
      .ok (finishCheck
        (capture_args (natStr (exprListLen (.cons a rest) - 1)).length 0 (.cons a rest) st).2
        (.callC attrs f
          (capture_args (natStr (exprListLen (.cons a rest) - 1)).length 0
            (.cons a rest) st).1)) := rfl

theorem eval_expr_blockE (b : Blk) (st : State) :
    eval_expr (.blockE b) st = eval_block b st := rfl

theorem eval_expr_constE (b : Blk) (st : State) :
    eval_expr (.constE b) st = eval_block b st := rfl

theorem eval_expr_group (inner : Expr) (st : State) :
    eval_expr (.group inner) st = eval_expr inner st := rfl

theorem eval_expr_paren (inner : Expr) (st : State) :
    eval_expr (.paren inner) st = eval_expr inner st := rfl

theorem eval_expr_unsafeE (attrs : Str) (b : Blk) (st : State) :
    eval_expr (.unsafeE attrs b) st
      = eval_block b { st with possibly_unsafe_flag := true } := rfl

theorem eval_expr_ifE (attrs : Str) (c : Expr) (tb : Blk) (el : Expr) (st : State) :
    eval_expr (.ifE attrs c tb (some el)) st =
      (match eval_block tb (st.add_var c condName
          (condDisp (printable_expr_string c))).2.fork with
       | .error err => .error err
       | .ok thenO =>
         match recurse_else_branches el (st.add_var c condName
             (condDisp (printable_expr_string c))).2.fork with
         | .error err => .error err
         | .ok elseO =>
           .ok (.ifOut
             (st.add_var c condName
               (condDisp (printable_expr_string c))).2.resolve_variables.possibly_unsafe_flag
             (st.add_var c condName
               (condDisp (printable_expr_string c))).2.resolve_variables.setup
             attrs
             (st.add_var c condName (condDisp (printable_expr_string c))).1
             thenO elseO)) := rfl

theorem eval_expr_indexE (attrs : Str) (obj idx : Expr) (st : State) :
    eval_expr (.indexE attrs obj idx) st =
      if isLit idx then .ok (finishCheck st (.orig (.indexE attrs obj idx)))
      else .ok (finishCheck (st.add_var idx indexName indexName).2
        (.indexC attrs obj (st.add_var idx indexName indexName).1)) := rfl

theorem eval_expr_matchE (attrs : Str) (scrut : Expr) (arms : Arms) (st : State) :
    eval_expr (.matchE attrs scrut arms) st =
      (match eval_arms (printable_expr_string scrut) arms
          (st.add_var scrut matchedName matchedDisp).2.resolve_variables with
       | .error err => .error err
       | .ok armsO =>
         .ok (.matchOut
           (st.add_var scrut matchedName
             matchedDisp).2.resolve_variables.possibly_unsafe_flag
           (st.add_var scrut matchedName matchedDisp).2.resolve_variables.setup
           attrs
           (st.add_var scrut matchedName matchedDisp).1
           armsO)) := rfl

theorem eval_expr_methodCall (attrs : Str) (recv : Expr) (m tf : Str) (args : ExprList)
    (st : State) :
    eval_expr (.methodCall attrs recv m tf args) st =
      .ok (finishCheck
        (capture_args (natStr (exprListLen args - 1)).length 0 args
          (st.add_var recv objectName objectName).2).2
        (.methodC attrs (st.add_var recv objectName objectName).1 m tf
          (capture_args (natStr (exprListLen args - 1)).length 0 args
            (st.add_var recv objectName objectName).2).1)) := rfl

theorem eval_expr_unary (attrs op : Str) (a : Expr) (st : State) :
    eval_expr (.unary attrs op a) st =
      .ok (finishCheck (st.add_var a originalName originalName).2
        (.unaryC attrs op (st.add_var a originalName originalName).1)) := rfl

theorem eval_block_eq (stmts : StmtList) (st : State) :
    eval_block (.mk stmts) st = eval_block_stmts stmts stmts [] st.resolve_variables := rfl

theorem eval_block_stmts_nil (orig : StmtList) (lead : List Stmt) (st : State) :
    eval_block_stmts orig .nil lead st
      = .ok (.blockPass st.possibly_unsafe_flag st.setup orig) := rfl

theorem eval_block_stmts_last (orig : StmtList) (lead : List Stmt) (e : Expr) (st : State) :
    eval_block_stmts orig (.cons (.exprStmt e false) .nil) lead st =
      eval_expr e
        { st.add_cause (blockCause (printable_expr_string e)) with
          setup := (st.add_cause (blockCause (printable_expr_string e))).setup
            ++ lead.map SetupStmt.hoisted } := rfl

theorem eval_block_stmts_last_semi (orig : StmtList) (lead : List Stmt) (e : Expr)
    (st : State) :
    eval_block_stmts orig (.cons (.exprStmt e true) .nil) lead st
      = .ok (.blockPass st.possibly_unsafe_flag st.setup orig) := rfl

theorem eval_block_stmts_last_other (orig : StmtList) (lead : List Stmt) (t : Str)
    (st : State) :
    eval_block_stmts orig (.cons (.other t) .nil) lead st
      = .ok (.blockPass st.possibly_unsafe_flag st.setup orig) := rfl

theorem eval_block_stmts_cons (orig : StmtList) (s s2 : Stmt) (r2 : StmtList)
    (lead : List Stmt) (st : State) :
    eval_block_stmts orig (.cons s (.cons s2 r2)) lead st
      = eval_block_stmts orig (.cons s2 r2) (lead ++ [s]) st := rfl

theorem recurse_else_blockE (b : Blk) (st : State) :
    recurse_else_branches (.blockE b) st =
      (match eval_block b st with
       | .error err => .error err
       | .ok body => .ok (.braced body)) := rfl

theorem recurse_else_ifE (attrs : Str) (c : Expr) (tb : Blk) (el : Expr) (st : State) :
    recurse_else_branches (.ifE attrs c tb (some el)) st =
      (match eval_block tb (st.add_var c condName
          (condDisp (printable_expr_string c))).2.fork with
       | .error err => .error err
       | .ok thenO =>
         match recurse_else_branches el (st.add_var c condName
             (condDisp (printable_expr_string c))).2.fork with
         | .error err => .error err
         | .ok elseO =>
           .ok (.ifOut false
             (st.add_var c condName
               (condDisp (printable_expr_string c))).2.resolve_variables.setup
             attrs
             (st.add_var c condName (condDisp (printable_expr_string c))).1
             thenO elseO)) := rfl

theorem eval_arms_cons (ss : Str) (attrs pat : Str) (body : Expr) (rest : Arms) (st : State) :
    eval_arms ss (.cons attrs pat body rest) st =
      (match eval_expr body (st.fork.add_cause (matchCause ss pat body)) with
       | .error err => .error err
       | .ok o =>
         match eval_arms ss rest st with
         | .error err => .error err
         | .ok restO => .ok (.cons attrs pat o restO)) := rfl

/-- Joint induction: every state obeying the placeholder invariant yields
balanced outputs, across all five mutually recursive evaluator functions. -/
theorem balanced_main : ∀ n : Nat,
    (∀ e st out, sizeE e < n → eval_expr e st = .ok out → StInv st →
      balancedB out = true) ∧
    (∀ b st out, sizeB b < n → eval_block b st = .ok out → StInv st →
      balancedB out = true) ∧
    (∀ orig rest lead st out, sizeSL rest < n → eval_block_stmts orig rest lead st = .ok out →
      StInv st → balancedB out = true) ∧
    (∀ br st out, sizeE br < n → recurse_else_branches br st = .ok out → StInv st →
      balancedB out = true) ∧
    (∀ ss arms st outs, countPH ss = 0 → sizeA arms < n → eval_arms ss arms st = .ok outs →
      StInv st → balancedArmsB outs = true) := by
  intro n
  induction n using Nat.strong_induction_on with
  | _ n IH =>
  refine ⟨?_, ?_, ?_, ?_, ?_⟩
  · intro e st out hsz hok hinv
    cases e with
    | array t => exact pass_balanced hok hinv
    | assign t q => exact errElim hok
    | asyncE t => exact errElim hok
    | awaitE t => exact pass_balanced hok hinv
    | binary attrs l op r =>
      rw [eval_expr_binary] at hok
      exact pass_balanced hok
        (StInv_add_var (StInv_add_var hinv l lhsName countPH_leftDisp) r rhsName
          countPH_rightDisp)
    | blockE b =>
      rw [eval_expr_blockE] at hok
      exact (IH (sizeE (.blockE b)) hsz).2.1 b st out
        (by show sizeB b < sizeB b + 1; omega) hok hinv
    | breakE t => exact errElim hok
    | call attrs f args =>
      cases args with
      | nil => exact pass_balanced hok hinv
      | cons a rest =>
        rw [eval_expr_call_cons] at hok
        exact pass_balanced hok (StInv_capture_args _ _ 0 st hinv)
    | cast inner ty => exact pass_balanced hok hinv
    | closure t => exact pass_balanced hok hinv
    | constE b =>
      rw [eval_expr_constE] at hok
      exact (IH (sizeE (.constE b)) hsz).2.1 b st out
        (by show sizeB b < sizeB b + 1; omega) hok hinv
    | continueE t => exact errElim hok
    | field t => exact pass_balanced hok hinv
    | forLoop t => exact errElim hok
    | group inner =>
      rw [eval_expr_group] at hok
      exact (IH (sizeE (.group inner)) hsz).1 inner st out
        (by show sizeE inner < sizeE inner + 1; omega) hok hinv
    | ifE attrs c tb eb =>
      cases eb with
      | none => exact pass_balanced hok hinv
      | some el =>
        rw [eval_expr_ifE] at hok
        rcases hb : eval_block tb (st.add_var c condName
            (condDisp (printable_expr_string c))).2.fork with err | thenO
        · rw [hb] at hok; exact errElim hok
        · rw [hb] at hok
          rcases he : recurse_else_branches el (st.add_var c condName
              (condDisp (printable_expr_string c))).2.fork with err | elseO
          · rw [he] at hok; exact errElim hok
          · rw [he] at hok
            injection hok with h
            subst h
            have hstc : StInv (st.add_var c condName (condDisp (printable_expr_string c))).2 :=
              StInv_add_var hinv c condName (countPH_condDisp c)
            have hthen := (IH (sizeE (.ifE attrs c tb (some el))) hsz).2.1 tb _ thenO
              (by show sizeB tb < sizeE c + sizeB tb + sizeE el + 1; omega) hb
              (StInv_fork hstc)
            have helse := (IH (sizeE (.ifE attrs c tb (some el))) hsz).2.2.2.1 el _ elseO
              (by show sizeE el < sizeE c + sizeB tb + sizeE el + 1; omega) he
              (StInv_fork hstc)
            simp [balancedB, hthen, helse]
    | indexE attrs obj idx =>
      rw [eval_expr_indexE] at hok
      by_cases hl : isLit idx = true
      · rw [if_pos hl] at hok
        exact pass_balanced hok hinv
      · rw [if_neg hl] at hok
        exact pass_balanced hok (StInv_add_var hinv idx indexName countPH_indexName)
    | infer t => exact pass_balanced hok hinv
    | letE t => exact errElim hok
    | lit t => exact pass_balanced hok hinv
    | loopE t => exact pass_balanced hok hinv
    | macroE t => exact pass_balanced hok hinv
    | matchE attrs scrut arms =>
      rw [eval_expr_matchE] at hok
      rcases ha : eval_arms (printable_expr_string scrut) arms
          (st.add_var scrut matchedName matchedDisp).2.resolve_variables with err | armsO
      · rw [ha] at hok; exact errElim hok
      · rw [ha] at hok
        injection hok with h
        subst h
        have hst1 : StInv (st.add_var scrut matchedName matchedDisp).2.resolve_variables :=
          StInv_resolve (StInv_add_var hinv scrut matchedName countPH_matchedDisp)
        have := (IH (sizeE (.matchE attrs scrut arms)) hsz).2.2.2.2
          (printable_expr_string scrut) arms _ armsO (countPH_printable scrut)
          (by show sizeA arms < sizeE scrut + sizeA arms + 1; omega) ha hst1
        simpa [balancedB] using this
    | methodCall attrs recv m tf args =>
      rw [eval_expr_methodCall] at hok
      exact pass_balanced hok (StInv_capture_args _ args 0 _
        (StInv_add_var hinv recv objectName countPH_objectName))
    | paren inner =>
      rw [eval_expr_paren] at hok
      exact (IH (sizeE (.paren inner)) hsz).1 inner st out
        (by show sizeE inner < sizeE inner + 1; omega) hok hinv
    | path t => exact pass_balanced hok hinv
    | range t => exact pass_balanced hok hinv
    | reference t => exact pass_balanced hok hinv
    | repeatE t => exact pass_balanced hok hinv
    | returnE t => exact errElim hok
    | structE t => exact errElim hok
    | tryE t => exact pass_balanced hok hinv
    | tuple t => exact pass_balanced hok hinv
    | unary attrs op a =>
      rw [eval_expr_unary] at hok
      exact pass_balanced hok (StInv_add_var hinv a originalName countPH_originalName)
    | unsafeE attrs b =>
      rw [eval_expr_unsafeE] at hok
      exact (IH (sizeE (.unsafeE attrs b)) hsz).2.1 b _ out
        (by show sizeB b < sizeB b + 1; omega) hok hinv
    | verbatim t => exact pass_balanced hok hinv
    | whileE t => exact errElim hok
  · intro b st out hsz hok hinv
    cases b with
    | mk stmts =>
      rw [eval_block_eq] at hok
      exact (IH (sizeB (.mk stmts)) hsz).2.2.1 stmts stmts [] _ out
        (by show sizeSL stmts < sizeSL stmts + 1; omega) hok (StInv_resolve hinv)
  · intro orig rest lead st out hsz hok hinv
    cases rest with
    | nil =>
      rw [eval_block_stmts_nil] at hok
      injection hok with h
      subst h
      rfl
    | cons s rest2 =>
      cases rest2 with
      | nil =>
        cases s with
        | exprStmt e semi =>
          cases semi with
          | false =>
            rw [eval_block_stmts_last] at hok
            exact (IH (sizeSL (.cons (.exprStmt e false) .nil)) hsz).1 e _ out
              (by show sizeE e < sizeE e + 1 + 1 + 1; omega) hok
              (StInv_add_cause hinv (countPH_blockCause e))
          | true =>
            rw [eval_block_stmts_last_semi] at hok
            injection hok with h
            subst h
            rfl
        | other t =>
          rw [eval_block_stmts_last_other] at hok
          injection hok with h
          subst h
          rfl
      | cons s2 r2 =>
        rw [eval_block_stmts_cons] at hok
        exact (IH (sizeSL (.cons s (.cons s2 r2))) hsz).2.2.1 orig (.cons s2 r2) (lead ++ [s])
          st out (by show sizeSL (.cons s2 r2) < sizeS s + sizeSL (.cons s2 r2) + 1; omega)
          hok hinv
  · intro br st out hsz hok hinv
    cases br with
    | blockE b =>
      rw [recurse_else_blockE] at hok
      rcases hb : eval_block b st with err | body
      · rw [hb] at hok; exact errElim hok
      · rw [hb] at hok
        injection hok with h
        subst h
        have := (IH (sizeE (.blockE b)) hsz).2.1 b st body
          (by show sizeB b < sizeB b + 1; omega) hb hinv
        simpa [balancedB] using this
    | ifE attrs c tb eb =>
      cases eb with
      | none =>
        injection hok with h
        subst h
        rfl
      | some el =>
        rw [recurse_else_ifE] at hok
        rcases hb : eval_block tb (st.add_var c condName
            (condDisp (printable_expr_string c))).2.fork with err | thenO
        · rw [hb] at hok; exact errElim hok
        · rw [hb] at hok
          rcases he : recurse_else_branches el (st.add_var c condName
              (condDisp (printable_expr_string c))).2.fork with err | elseO
          · rw [he] at hok; exact errElim hok
          · rw [he] at hok
            injection hok with h
            subst h
            have hstc : StInv (st.add_var c condName (condDisp (printable_expr_string c))).2 :=
              StInv_add_var hinv c condName (countPH_condDisp c)
            have hthen := (IH (sizeE (.ifE attrs c tb (some el))) hsz).2.1 tb _ thenO
              (by show sizeB tb < sizeE c + sizeB tb + sizeE el + 1; omega) hb
              (StInv_fork hstc)
            have helse := (IH (sizeE (.ifE attrs c tb (some el))) hsz).2.2.2.1 el _ elseO
              (by show sizeE el < sizeE c + sizeB tb + sizeE el + 1; omega) he
              (StInv_fork hstc)
            simp [balancedB, hthen, helse]
    | array t => exact errElim hok
    | assign t q => exact errElim hok
    | asyncE t => exact errElim hok
    | awaitE t => exact errElim hok
    | binary attrs l op r => exact errElim hok
    | breakE t => exact errElim hok
    | call attrs f args => exact errElim hok
    | cast inner ty => exact errElim hok
    | closure t => exact errElim hok
    | constE b => exact errElim hok
    | continueE t => exact errElim hok
    | field t => exact errElim hok
    | forLoop t => exact errElim hok
    | group inner => exact errElim hok
    | indexE attrs obj idx => exact errElim hok
    | infer t => exact errElim hok
    | letE t => exact errElim hok
    | lit t => exact errElim hok
    | loopE t => exact errElim hok
    | macroE t => exact errElim hok
    | matchE attrs scrut arms => exact errElim hok
    | methodCall attrs recv m tf args => exact errElim hok
    | paren inner => exact errElim hok
    | path t => exact errElim hok
    | range t => exact errElim hok
    | reference t => exact errElim hok
    | repeatE t => exact errElim hok
    | returnE t => exact errElim hok
    | structE t => exact errElim hok
    | tryE t => exact errElim hok
    | tuple t => exact errElim hok
    | unary attrs op a => exact errElim hok
    | unsafeE attrs b => exact errElim hok
    | verbatim t => exact errElim hok
    | whileE t => exact errElim hok
  · intro ss arms st outs hss hsz hok hinv
    cases arms with
    | nil =>
      rw [show eval_arms ss .nil st = .ok .nil from rfl] at hok
      injection hok with h
      subst h
      rfl
    | cons attrs pat body rest =>
      rw [eval_arms_cons] at hok
      rcases hb : eval_expr body (st.fork.add_cause (matchCause ss pat body)) with err | o
      · rw [hb] at hok; exact errElim hok
      · rw [hb] at hok
        rcases hr : eval_arms ss rest st with err | restO
        · rw [hr] at hok; exact errElim hok
        · rw [hr] at hok
          injection hok with h
          subst h
          have h1 := (IH (sizeA (.cons attrs pat body rest)) hsz).1 body _ o
            (by show sizeE body < sizeE body + sizeA rest + 1; omega) hb
            (StInv_add_cause (StInv_fork hinv) (countPH_matchCause hss pat body))
          have h2 := (IH (sizeA (.cons attrs pat body rest)) hsz).2.2.2.2 ss rest st restO hss
            (by show sizeA rest < sizeE body + sizeA rest + 1; omega) hr hinv
          simp [balancedArmsB, h1, h2]

/-- The initial state built by `assert_internal` before dispatching. -/
def initState (e : Expr) (fmt : Str) : State :=
  let st0 : State :=
    { State.new with
      setup := [.structDef]
      format_message := headerPre ++ printable_expr_string e ++ headerPost }
  if fmt = [] then st0
  else
    { st0 with
      format_message := st0.format_message ++ fmtSuffix
      dynamic_args := st0.dynamic_args ++ [.fmtArgs fmt] }

theorem assert_internal_eq (e : Expr) (fmt : Str)
    (h1 : printable_expr_string e ≠ trueStr) (h2 : printable_expr_string e ≠ falseStr) :
    assert_internal e fmt = eval_expr e (initState e fmt) := by
  unfold assert_internal
  rw [if_neg h1, if_neg h2]
  rfl

theorem noBrace_headerPre : noBrace headerPre := by
  unfold noBrace headerPre
  decide

theorem countPH_header (e : Expr) :
    countPH (headerPre ++ printable_expr_string e ++ headerPost) = 0 := by
  rw [printable_expr_string, escapeBraces_eq_dub, List.append_assoc,
    countPH_noBrace_append noBrace_headerPre, countPH_dub_append]
  decide

theorem StInv_initState (e : Expr) (fmt : Str) : StInv (initState e fmt) := by
  unfold initState
  by_cases h : fmt = []
  · rw [if_pos h]
    exact ⟨countPH_header e, by intro p hp; simp [State.new] at hp⟩
  · rw [if_neg h]
    refine ⟨?_, by intro p hp; simp [State.new] at hp⟩
    show countPH ((headerPre ++ printable_expr_string e ++ headerPost) ++ fmtSuffix) = 1
    have hfs : headOk fmtSuffix := ⟨by decide, by decide⟩
    rw [countPH_append_headOk _ fmtSuffix hfs, countPH_header e]
    decide

/-- C2: for every input expression accepted by `assert_internal`, every panic
site of the generated code has exactly as many `\x7b\x7d` placeholders in its
format message as it has dynamic arguments (the arguments are substituted
positionally, so the i-th placeholder receives the i-th argument; brace
characters from the user's expression text are escaped by
`printable_expr_string` and do not count as placeholders). -/
theorem c2_dynamic_args_match_placeholders (e : Expr) (fmt : Str) (out : Output)
    (h : assert_internal e fmt = .ok out) : balancedB out = true := by
  by_cases h1 : printable_expr_string e = trueStr
  · unfold assert_internal at h
    rw [if_pos h1] at h
    injection h with h
    subst h
    rfl
  · by_cases h2 : printable_expr_string e = falseStr
    · unfold assert_internal at h
      rw [if_neg h1, if_pos h2] at h
      injection h with h
      subst h
      rfl
    · rw [assert_internal_eq e fmt h1 h2] at h
      exact (balanced_main (sizeE e + 1)).1 e _ out (by omega) h (StInv_initState e fmt)

def exC2 : Expr :=
  .ifE [] (.path ("c".toList))
    (.mk (.cons (.exprStmt (.binary [] (.lit ("1".toList)) ("==".toList)
      (.lit ("2".toList))) false) .nil))
    (some (.blockE (.mk (.cons (.exprStmt (.matchE [] (.path ("x".toList))
      (.cons [] ("_".toList) (.lit ("true".toList)) .nil)) false) .nil))))

def outC2 : Output :=
  match assert_internal exC2 ("got \x7b\x7d".toList) with
  | .ok o => o
  | .error _ => .falsePanic

theorem c2_witness :
    assert_internal exC2 ("got \x7b\x7d".toList) = .ok outC2 ∧ balancedB outC2 = true :=
  ⟨rfl, c2_dynamic_args_match_placeholders exC2 ("got \x7b\x7d".toList) outC2 rfl⟩

theorem finishCheck_eq (st : State) (cond : Cond) :
    finishCheck st cond = .check st.possibly_unsafe_flag st.setup cond
      (st.format_message ++
        concatMap (fun p => renderVarLine (maxNameLen st.pending_vars) p.1) st.pending_vars)
      (st.dynamic_args ++ st.pending_vars.map Prod.snd) := rfl

theorem finishCheck_no_vars {st : State} (h : st.pending_vars = []) (cond : Cond) :
    finishCheck st cond
      = .check st.possibly_unsafe_flag st.setup cond st.format_message st.dynamic_args := by
  rw [finishCheck_eq, h]
  simp [concatMap]

theorem initState_fields (e : Expr) (fmt : Str) :
    (initState e fmt).setup = [.structDef] ∧
    (initState e fmt).pending_vars = [] ∧
    (initState e fmt).possibly_unsafe_flag = false ∧
    (initState e fmt).next_ident_id = 0 ∧
    (initState e fmt).format_message
      = (headerPre ++ printable_expr_string e ++ headerPost)
        ++ (if fmt = [] then [] else fmtSuffix) ∧
    (initState e fmt).dynamic_args = (if fmt = [] then [] else [.fmtArgs fmt]) := by
  unfold initState
  by_cases h : fmt = [] <;> simp [h, State.new]

theorem mem_dub_of_mem {c : Char} (h1 : c ≠ lbrace) (h2 : c ≠ rbrace) {s : Str}
    (h : c ∈ s) : c ∈ dub s := by
  induction s with
  | nil => simp at h
  | cons a as ih =>
    simp only [dub]
    rcases List.mem_cons.1 h with h' | h'
    · subst h'
      apply List.mem_append.2
      left
      simp [h1, h2]
    · exact List.mem_append.2 (Or.inr (ih h'))

theorem printable_ne_bool_of_space {e : Expr} (h : ' ' ∈ exprString e) :
    printable_expr_string e ≠ trueStr ∧ printable_expr_string e ≠ falseStr := by
  have hm : ' ' ∈ printable_expr_string e := by
    rw [printable_expr_string, escapeBraces_eq_dub]
    exact mem_dub_of_mem (by decide) (by decide) h
  constructor
  · intro hq
    rw [hq] at hm
    simp [trueStr] at hm
  · intro hq
    rw [hq] at hm
    simp [falseStr] at hm

/-! ## Claim C4 -/

def expectedBoolPre : Str := "Expected a boolean expression, found".toList

/-- C4: every condition whose top node is an assignment, async block, break,
continue, for loop, let pattern, return, while loop, or struct literal is
rejected by `eval_expr` with a terminal construct-specific compile error whose
message starts with "Expected a boolean expression, found", anchored at the
offending span (the `=` token for assignments, the whole construct
otherwise); no rewritten code is ever produced for these shapes. -/
theorem c4_hard_rejection (st : State) (t : Str) (q : Nat) :
    eval_expr (.assign t q) st = .error ⟨msgAssign, .tokenT q⟩ ∧
    eval_expr (.asyncE t) st = .error ⟨msgAsync, .exprT (.asyncE t)⟩ ∧
    eval_expr (.breakE t) st = .error ⟨msgBreak, .exprT (.breakE t)⟩ ∧
    eval_expr (.continueE t) st = .error ⟨msgContinue, .exprT (.continueE t)⟩ ∧
    eval_expr (.forLoop t) st = .error ⟨msgForLoop, .exprT (.forLoop t)⟩ ∧
    eval_expr (.letE t) st = .error ⟨msgLet, .exprT (.letE t)⟩ ∧
    eval_expr (.returnE t) st = .error ⟨msgReturn, .exprT (.returnE t)⟩ ∧
    eval_expr (.structE t) st = .error ⟨msgStruct, .exprT (.structE t)⟩ ∧
    eval_expr (.whileE t) st = .error ⟨msgWhile, .exprT (.whileE t)⟩ ∧
    (isPrefixAt expectedBoolPre msgAssign = true ∧
      isPrefixAt expectedBoolPre msgAsync = true ∧
      isPrefixAt expectedBoolPre msgBreak = true ∧
      isPrefixAt expectedBoolPre msgContinue = true ∧
      isPrefixAt expectedBoolPre msgForLoop = true ∧
      isPrefixAt expectedBoolPre msgLet = true ∧
      isPrefixAt expectedBoolPre msgReturn = true ∧
      isPrefixAt expectedBoolPre msgStruct = true ∧
      isPrefixAt expectedBoolPre msgWhile = true) :=
  ⟨rfl, rfl, rfl, rfl, rfl, rfl, rfl, rfl, rfl, by decide⟩

/-! ## Claim C6 -/

/-- C6: if the whole condition's rendered text is exactly `true`, the
transform returns the flavor-text fast path and never reaches the generic
classifier; if it is exactly `false`, the generated code unconditionally
panics with the fixed message "surprisingly, `false` did not evaluate to
true" (the spec's "surprisingly/unexpectedly" wording), which contains no
"left" or "right" lines and no placeholders. -/
theorem c6_literal_fast_paths :
    (∀ e fmt, printable_expr_string e = trueStr → assert_internal e fmt = .ok .trueFlavor) ∧
    (∀ e fmt, printable_expr_string e = falseStr → assert_internal e fmt = .ok .falsePanic) ∧
    (∀ E rs, runOutput E .falsePanic rs = .fails falseMsg) ∧
    falseMsg = "surprisingly, `false` did not evaluate to true".toList ∧
    countSubstr ("left".toList) falseMsg = 0 ∧
    countSubstr ("right".toList) falseMsg = 0 ∧
    countPH falseMsg = 0 := by
  refine ⟨?_, ?_, fun E rs => rfl, rfl, by decide, by decide, by decide⟩
  · intro e fmt h
    unfold assert_internal
    rw [if_pos h]
  · intro e fmt h
    unfold assert_internal
    rw [if_neg (by rw [h]; decide), if_pos h]

theorem c6_witness :
    assert_internal (.lit ("true".toList)) [] = .ok .trueFlavor ∧
    assert_internal (.lit ("false".toList)) [] = .ok .falsePanic :=
  ⟨c6_literal_fast_paths.1 (.lit ("true".toList)) [] rfl,
   c6_literal_fast_paths.2.1 (.lit ("false".toList)) [] rfl⟩

/-! ## Claim C7 -/

def exC7 : Expr := .cast (.path ("x".toList)) ("bool".toList)

/-- C7 counterexample: for the condition `x as bool` (a cast whose target
type is boolean), the transform captures nothing: the output's setup is only
the wrapper-struct declaration, the predicate is the original expression, the
argument list is empty, and the failure message contains no "input" line —
refuting the claim that the pre-cast value is captured and displayed as
"input". -/
theorem c7_counterexample :
    assert_internal exC7 [] =
      .ok (.check false [.structDef] (.orig exC7)
        ("assertion `x as bool` failed".toList) []) ∧
    countSubstr ("input".toList) ("assertion `x as bool` failed".toList) = 0 :=
  ⟨rfl, by decide⟩

/-- C7 amended: a cast expression given as the condition is passed through
unchanged (`syn::Expr::Cast(_) => {}` in the source): no pre-cast value is
captured, no wrapper binding or debug string is created, and no variable line
(in particular no "input" line) is added to the failure report; the type
error, if any, is left to the host compiler. -/
theorem c7_cast_passthrough (inner : Expr) (ty fmt : Str) :
    assert_internal (.cast inner ty) fmt =
      .ok (.check false [.structDef] (.orig (.cast inner ty))
        ((headerPre ++ printable_expr_string (.cast inner ty) ++ headerPost)
          ++ (if fmt = [] then [] else fmtSuffix))
        (if fmt = [] then [] else [.fmtArgs fmt])) ∧
    wrapSites [.structDef] = [] ∧
    setupSites [.structDef] = [] := by
  have hsp : ' ' ∈ exprString (.cast inner ty) := by
    show ' ' ∈ exprString inner ++ " as ".toList ++ ty
    apply List.mem_append.2
    left
    apply List.mem_append.2
    right
    decide
  obtain ⟨h1, h2⟩ := printable_ne_bool_of_space hsp
  refine ⟨?_, rfl, rfl⟩
  rw [assert_internal_eq _ _ h1 h2]
  rw [show eval_expr (.cast inner ty) (initState (.cast inner ty) fmt)
    = .ok (finishCheck (initState (.cast inner ty) fmt) (.orig (.cast inner ty))) from rfl]
  obtain ⟨hs, hp, hu, hn, hm, ha⟩ := initState_fields (.cast inner ty) fmt
  rw [finishCheck_no_vars hp, hs, hu, hm, ha]

/-! ## Claim C10 -/

/-- C10: when the captured sub-expression is a bare path, `add_var` creates
no wrapper binding and does not move the value: the returned access is the
original path used directly, the setup gains exactly one statement — the
binding of the debug-formatted string — and the identifier counter advances
by one; so the path is formatted exactly once (the sole evaluation site of
the added setup) and the rewritten predicate references the original path. -/
theorem c10_path_operand_not_wrapped (st : State) (t idn disp : Str) :
    st.add_var (.path t) idn disp =
      (Access.direct (.path t),
       { st with
          setup := st.setup ++ [.letFmt st.next_ident_id (idn ++ strSuffix)
            (.direct (.path t))]
          pending_vars :=
            st.pending_vars ++ [(disp, .strVar st.next_ident_id (idn ++ strSuffix))]
          next_ident_id := st.next_ident_id + 1 }) ∧
    wrapSites [.letFmt st.next_ident_id (idn ++ strSuffix) (.direct (.path t))] = [] ∧
    setupSites [.letFmt st.next_ident_id (idn ++ strSuffix) (.direct (.path t))]
      = [.path t] ∧
    accSites (.direct (.path t)) = [.path t] :=
  ⟨add_var_path st t idn disp, rfl, rfl, rfl⟩

/-! ## Claim C5 -/

/-- Expected display names `arg i`, `arg (i+1)`, … for `n` arguments. -/
def argDisplays (ilen : Nat) : Nat → Nat → List Str
  | _, 0 => []
  | i, n + 1 => argDisplay ilen i :: argDisplays ilen (i + 1) n

theorem concatMap_comp_fst (g : Str → Str) (l : List (Str × Arg)) :
    concatMap (fun p => g p.1) l = concatMap g (l.map Prod.fst) := by
  induction l with
  | nil => rfl
  | cons p ps ih => simp [concatMap, ih]

theorem capture_args_fields (ilen : Nat) : ∀ (args : ExprList) (i : Nat) (st : State),
    (capture_args ilen i args st).2.format_message = st.format_message ∧
    (capture_args ilen i args st).2.dynamic_args = st.dynamic_args ∧
    (capture_args ilen i args st).2.possibly_unsafe_flag = st.possibly_unsafe_flag ∧
    (capture_args ilen i args st).2.pending_vars.map Prod.fst
      = st.pending_vars.map Prod.fst ++ argDisplays ilen i (exprListLen args) ∧
    (capture_args ilen i args st).2.pending_vars.length
      = st.pending_vars.length + exprListLen args ∧
    (capture_args ilen i args st).1.length = exprListLen args ∧
    (∀ x ∈ (capture_args ilen i args st).2.pending_vars,
      x ∈ st.pending_vars ∨ ∃ id nm, x.2 = Arg.strVar id nm)
  | .nil, i, st => by
    refine ⟨rfl, rfl, rfl, by simp [exprListLen, argDisplays]; rfl,
      by simp [exprListLen]; rfl, rfl, ?_⟩
    intro x hx
    exact Or.inl hx
  | .cons a rest, i, st => by
    rcases h1 : st.add_var a (argIdent i) (argDisplay ilen i) with ⟨acc, st1⟩
    have hst1fmt : st1.format_message = st.format_message ∧
        st1.dynamic_args = st.dynamic_args ∧
        st1.possibly_unsafe_flag = st.possibly_unsafe_flag ∧
        st1.pending_vars
          = st.pending_vars ++ [(argDisplay ilen i,
              .strVar st.next_ident_id (argIdent i ++ strSuffix))] := by
      by_cases hp : isPath a = true
      · obtain ⟨t, rfl⟩ := isPath_iff.1 hp
        rw [add_var_path] at h1
        injection h1 with ha hb
        rw [← hb]
        exact ⟨rfl, rfl, rfl, rfl⟩
      · have hpf : isPath a = false := by simpa using hp
        rw [add_var_not_path st hpf] at h1
        injection h1 with ha hb
        rw [← hb]
        exact ⟨rfl, rfl, rfl, rfl⟩
    have hrec := capture_args_fields ilen rest (i + 1) st1
    have hcap : capture_args ilen i (.cons a rest) st =
        ((capture_args ilen (i + 1) rest st1).1.cons acc,
          (capture_args ilen (i + 1) rest st1).2) := by
      show (match st.add_var a (argIdent i) (argDisplay ilen i) with
        | (acc, st) => match capture_args ilen (i + 1) rest st with
          | (accs, st) => (acc :: accs, st)) = _
      rw [h1]
    rw [hcap]
    obtain ⟨r1, r2, r3, r4, r5, r6, r7⟩ := hrec
    obtain ⟨f1, f2, f3, f4⟩ := hst1fmt
    refine ⟨by rw [r1, f1], by rw [r2, f2], by rw [r3, f3], ?_, ?_, ?_, ?_⟩
    · rw [r4, f4]
      show _ = st.pending_vars.map Prod.fst
        ++ argDisplays ilen i (exprListLen rest + 1)
      rw [show argDisplays ilen i (exprListLen rest + 1)
        = argDisplay ilen i :: argDisplays ilen (i + 1) (exprListLen rest) from rfl]
      simp
    · rw [r5, f4]
      show _ = st.pending_vars.length + (exprListLen rest + 1)
      simp
      omega
    · show (capture_args ilen (i + 1) rest st1).1.length + 1 = exprListLen rest + 1
      rw [r6]
    · intro x hx
      rcases r7 x hx with h' | h'
      · rw [f4] at h'
        rcases List.mem_append.1 h' with h'' | h''
        · exact Or.inl h''
        · simp at h''
          right
          rw [h'']
          exact ⟨_, _, rfl⟩
      · exact Or.inr h'

def exC5 : Expr :=
  .call [] (.path ("f".toList))
    (.cons (.lit ("0".toList)) (.cons (.lit ("1".toList)) (.cons (.lit ("2".toList))
      (.cons (.lit ("3".toList)) (.cons (.lit ("4".toList)) (.cons (.lit ("5".toList))
      (.cons (.lit ("6".toList)) (.cons (.lit ("7".toList)) (.cons (.lit ("8".toList))
      (.cons (.lit ("9".toList)) (.cons (.lit ("10".toList)) .nil)))))))))))

def msgC5 : Str :=
  match assert_internal exC5 [] with
  | .ok (.check _ _ _ m _) => m
  | _ => []

set_option maxRecDepth 100000 in
/-- C5 counterexample: for a call with 11 arguments the report line for
argument 0 reads `arg  0` — the index is padded with a space to the width of
the largest index (`{i:>index_len$}` in the source), not with a zero: the
line `arg 00` claimed by zero-padding never occurs.  There are exactly 11
`arg` lines, in argument order. -/
theorem c5_counterexample :
    countSubstr ("\n    arg  0: \x7b\x7d".toList) msgC5 = 1 ∧
    countSubstr ("arg 00".toList) msgC5 = 0 ∧
    countSubstr ("\n    arg ".toList) msgC5 = 11 ∧
    countSubstr ("\n    arg 10: \x7b\x7d".toList) msgC5 = 1 := by
  refine ⟨?_, ?_, ?_, ?_⟩ <;> rfl

/-- C5 amended: a call with N ≥ 1 arguments captures each argument `i` with
display name `arg i`, the index right-aligned with SPACE fill (`padTo`) to
the width of the largest index; the failure report consists of the header
plus exactly one variable line per argument, in argument order; the dynamic
arguments gain exactly one debug-string variable per argument; and a call
with zero arguments is left completely untouched by the rewriter (predicate
is the original expression, nothing captured). -/
theorem c5_call_arg_capture (attrs : Str) (f a : Expr) (rest : ExprList) (fmt : Str) :
    (∀ st, eval_expr (.call attrs f .nil) st
        = .ok (finishCheck st (.orig (.call attrs f .nil)))) ∧
    ((capture_args ((natStr (exprListLen (.cons a rest) - 1)).length) 0 (.cons a rest)
        (initState (.call attrs f (.cons a rest)) fmt)).2.pending_vars.map Prod.fst
      = argDisplays ((natStr (exprListLen (.cons a rest) - 1)).length) 0
          (exprListLen (.cons a rest))) ∧
    ((capture_args ((natStr (exprListLen (.cons a rest) - 1)).length) 0 (.cons a rest)
        (initState (.call attrs f (.cons a rest)) fmt)).2.pending_vars.length
      = exprListLen (.cons a rest)) ∧
    ((capture_args ((natStr (exprListLen (.cons a rest) - 1)).length) 0 (.cons a rest)
        (initState (.call attrs f (.cons a rest)) fmt)).1.length
      = exprListLen (.cons a rest)) ∧
    (∀ x ∈ (capture_args ((natStr (exprListLen (.cons a rest) - 1)).length) 0 (.cons a rest)
        (initState (.call attrs f (.cons a rest)) fmt)).2.pending_vars,
      ∃ id nm, x.2 = Arg.strVar id nm) ∧
    assert_internal (.call attrs f (.cons a rest)) fmt =
      .ok (.check false
        (capture_args ((natStr (exprListLen (.cons a rest) - 1)).length) 0 (.cons a rest)
          (initState (.call attrs f (.cons a rest)) fmt)).2.setup
        (.callC attrs f
          (capture_args ((natStr (exprListLen (.cons a rest) - 1)).length) 0 (.cons a rest)
            (initState (.call attrs f (.cons a rest)) fmt)).1)
        (((headerPre ++ printable_expr_string (.call attrs f (.cons a rest)) ++ headerPost)
            ++ (if fmt = [] then [] else fmtSuffix))
          ++ concatMap
            (renderVarLine (maxNameLen
              (capture_args ((natStr (exprListLen (.cons a rest) - 1)).length) 0 (.cons a rest)
                (initState (.call attrs f (.cons a rest)) fmt)).2.pending_vars))
            (argDisplays ((natStr (exprListLen (.cons a rest) - 1)).length) 0
              (exprListLen (.cons a rest))))
        ((if fmt = [] then [] else [.fmtArgs fmt])
          ++ (capture_args ((natStr (exprListLen (.cons a rest) - 1)).length) 0 (.cons a rest)
            (initState (.call attrs f (.cons a rest)) fmt)).2.pending_vars.map Prod.snd)) := by
  set N := exprListLen (.cons a rest) with hN
  set ilen := (natStr (N - 1)).length with hilen
  set e := Expr.call attrs f (.cons a rest) with he
  obtain ⟨g1, g2, g3, g4, g5, g6, g7⟩ :=
    capture_args_fields ilen (.cons a rest) 0 (initState e fmt)
  obtain ⟨i1, i2, i3, i4, i5, i6⟩ := initState_fields e fmt
  have hpfst : (capture_args ilen 0 (.cons a rest) (initState e fmt)).2.pending_vars.map
      Prod.fst = argDisplays ilen 0 N := by
    rw [g4, i2]
    simp
  refine ⟨fun st => rfl, hpfst, by rw [g5, i2]; simp, g6, ?_, ?_⟩
  · intro x hx
    rcases g7 x hx with h' | h'
    · rw [i2] at h'
      simp at h'
    · exact h'
  · have hsp : ' ' ∈ exprString e := by
      rw [he]
      show ' ' ∈ attrsPre attrs (exprString f ++ [' ', '(']
        ++ exprListString (.cons a rest) ++ [')'])
      unfold attrsPre
      by_cases hat : attrs = []
      · rw [if_pos hat]
        apply List.mem_append.2
        left
        apply List.mem_append.2
        left
        apply List.mem_append.2
        right
        decide
      · rw [if_neg hat]
        apply List.mem_append.2
        left
        apply List.mem_append.2
        right
        decide
    obtain ⟨h1, h2⟩ := printable_ne_bool_of_space hsp
    rw [assert_internal_eq _ _ h1 h2]
    rw [show eval_expr (.call attrs f (.cons a rest)) (initState e fmt)
      = .ok (finishCheck
          (capture_args ilen 0 (.cons a rest) (initState e fmt)).2
          (.callC attrs f (capture_args ilen 0 (.cons a rest) (initState e fmt)).1))
      from rfl]
    rw [finishCheck_eq]
    rw [g3, i3, g1, i5, g2, i6, concatMap_comp_fst, hpfst]

/-! ## Claim C1 -/

def lrTail : Str := "\n     left: \x7b\x7d\n    right: \x7b\x7d".toList

def leftNeedle : Str := "\n     left: \x7b\x7d".toList

def rightNeedle : Str := "\n    right: \x7b\x7d".toList

theorem initState_explicit (e : Expr) (fmt : Str) :
    initState e fmt =
      { setup := [.structDef]
        format_message := (headerPre ++ printable_expr_string e ++ headerPost)
          ++ (if fmt = [] then [] else fmtSuffix)
        dynamic_args := if fmt = [] then [] else [.fmtArgs fmt]
        pending_vars := []
        possibly_unsafe_flag := false
        next_ident_id := 0 } := by
  unfold initState
  by_cases hf : fmt = [] <;> simp [hf, State.new]

theorem space_mem_binary (attrs : Str) (l : Expr) (op : Str) (r : Expr) :
    ' ' ∈ exprString (.binary attrs l op r) := by
  show ' ' ∈ attrsPre attrs (exprString l ++ [' '] ++ op ++ [' '] ++ exprString r)
  unfold attrsPre
  have hin : ' ' ∈ exprString l ++ [' '] ++ op ++ [' '] ++ exprString r := by
    apply List.mem_append.2
    left
    apply List.mem_append.2
    right
    decide
  by_cases hat : attrs = []
  · rw [if_pos hat]
    exact hin
  · rw [if_neg hat]
    exact List.mem_append.2 (Or.inr hin)

/-- C1: for a binary condition `l <op> r` with non-path operands (operand
expressions that can have side effects), the rewriter captures the left
operand displayed as "left" and the right operand displayed as "right", the
predicate becomes `capturedLeft <op> capturedRight` (the two wrapper
accesses), the failure template contains exactly one "left" line and exactly
one "right" line, the runtime evaluation sites are exactly `[l, r]` — each
operand evaluated exactly once — and on failure the rendered report shows
the header plus `left:` with `l`'s debug-formatted value and `right:` with
`r`'s debug-formatted value, each value obtained from the once-computed
wrapper binding no matter how it is displayed. -/
theorem c1_binary_rewrite (attrs : Str) (l : Expr) (op : Str) (r : Expr) (fmt : Str)
    (hl : isPath l = false) (hr : isPath r = false)
    (hnl : ('\n' ∈ exprString (.binary attrs l op r)) → False) :
    assert_internal (.binary attrs l op r) fmt =
      .ok (.check false
        [.structDef, .letWrap 1 lhsName l,
         .letFmt 0 (lhsName ++ strSuffix) (.wrapA 1 lhsName),
         .letWrap 3 rhsName r, .letFmt 2 (rhsName ++ strSuffix) (.wrapA 3 rhsName)]
        (.binC attrs (.wrapA 1 lhsName) op (.wrapA 3 rhsName))
        (((headerPre ++ printable_expr_string (.binary attrs l op r) ++ headerPost)
            ++ (if fmt = [] then [] else fmtSuffix)) ++ lrTail)
        ((if fmt = [] then [] else [.fmtArgs fmt])
          ++ [.strVar 0 (lhsName ++ strSuffix), .strVar 2 (rhsName ++ strSuffix)])) ∧
    countSubstr leftNeedle
      (((headerPre ++ printable_expr_string (.binary attrs l op r) ++ headerPost)
          ++ (if fmt = [] then [] else fmtSuffix)) ++ lrTail) = 1 ∧
    countSubstr rightNeedle
      (((headerPre ++ printable_expr_string (.binary attrs l op r) ++ headerPost)
          ++ (if fmt = [] then [] else fmtSuffix)) ++ lrTail) = 1 ∧
    evalSites (.check false
        [.structDef, .letWrap 1 lhsName l,
         .letFmt 0 (lhsName ++ strSuffix) (.wrapA 1 lhsName),
         .letWrap 3 rhsName r, .letFmt 2 (rhsName ++ strSuffix) (.wrapA 3 rhsName)]
        (.binC attrs (.wrapA 1 lhsName) op (.wrapA 3 rhsName))
        (((headerPre ++ printable_expr_string (.binary attrs l op r) ++ headerPost)
            ++ (if fmt = [] then [] else fmtSuffix)) ++ lrTail)
        ((if fmt = [] then [] else [.fmtArgs fmt])
          ++ [.strVar 0 (lhsName ++ strSuffix), .strVar 2 (rhsName ++ strSuffix)]))
      = [l, r] ∧
    (∀ (E : Env) (vl vr : Value), evalE E l = some vl → evalE E r = some vr →
      E.opSem op vl vr = some (.bool false) →
      runOutput E (.check false
        [.structDef, .letWrap 1 lhsName l,
         .letFmt 0 (lhsName ++ strSuffix) (.wrapA 1 lhsName),
         .letWrap 3 rhsName r, .letFmt 2 (rhsName ++ strSuffix) (.wrapA 3 rhsName)]
        (.binC attrs (.wrapA 1 lhsName) op (.wrapA 3 rhsName))
        ((headerPre ++ printable_expr_string (.binary attrs l op r) ++ headerPost) ++ lrTail)
        [.strVar 0 (lhsName ++ strSuffix), .strVar 2 (rhsName ++ strSuffix)]) RunSt.empty
      = .fails (headerPre ++ (exprString (.binary attrs l op r)
          ++ ("` failed\n     left: ".toList ++ (E.fmtDebug vl
            ++ ("\n    right: ".toList ++ E.fmtDebug vr)))))) := by
  obtain ⟨h1, h2⟩ := printable_ne_bool_of_space (space_mem_binary attrs l op r)
  have hA : ∀ a ∈ (headerPre ++ printable_expr_string (.binary attrs l op r) ++ headerPost)
      ++ (if fmt = [] then [] else fmtSuffix), a ≠ '\n' := by
    intro a ha hq
    subst hq
    rcases List.mem_append.1 ha with ha | ha
    · rcases List.mem_append.1 ha with ha | ha
      · rcases List.mem_append.1 ha with ha | ha
        · exact absurd ha (by decide)
        · rw [printable_expr_string, escapeBraces_eq_dub] at ha
          exact hnl (mem_dub ha)
      · exact absurd ha (by decide)
    · by_cases hf : fmt = []
      · rw [if_pos hf] at ha
        simp at ha
      · rw [if_neg hf] at ha
        exact absurd ha (by decide)
  refine ⟨?_, ?_, ?_, rfl, ?_⟩
  · rw [assert_internal_eq _ _ h1 h2, initState_explicit, eval_expr_binary,
      add_var_not_path _ hl, add_var_not_path _ hr]
    rfl
  · rw [show leftNeedle = '\n' :: ("     left: \x7b\x7d".toList) from rfl,
      countSubstr_append_headDisjoint (fun a ha => hA a ha)]
    rfl
  · rw [show rightNeedle = '\n' :: ("    right: \x7b\x7d".toList) from rfl,
      countSubstr_append_headDisjoint (fun a ha => hA a ha)]
    rfl
  · intro E vl vr hvl hvr hop
    have hex : execSetups E
        [.structDef, .letWrap 1 lhsName l,
         .letFmt 0 (lhsName ++ strSuffix) (.wrapA 1 lhsName),
         .letWrap 3 rhsName r, .letFmt 2 (rhsName ++ strSuffix) (.wrapA 3 rhsName)]
        RunSt.empty
        = some ⟨[(3, vr), (1, vl)], [(2, E.fmtDebug vr), (0, E.fmtDebug vl)]⟩ := by
      simp [execSetups, execSetup, evalAccess, hvl, hvr, RunSt.empty, List.lookup]
    have hcond : evalCond E ⟨[(3, vr), (1, vl)], [(2, E.fmtDebug vr), (0, E.fmtDebug vl)]⟩
        (.binC attrs (.wrapA 1 lhsName) op (.wrapA 3 rhsName)) = some (.bool false) := by
      simp [evalCond, evalAccess, List.lookup, hop]
    have hargs : argVals E ⟨[(3, vr), (1, vl)], [(2, E.fmtDebug vr), (0, E.fmtDebug vl)]⟩
        [.strVar 0 (lhsName ++ strSuffix), .strVar 2 (rhsName ++ strSuffix)]
        = some [E.fmtDebug vl, E.fmtDebug vr] := by
      simp [argVals, argVal, List.lookup]
    simp only [runOutput, hex, hcond, hargs, asBool]
    have hrender : render
        ((headerPre ++ printable_expr_string (.binary attrs l op r) ++ headerPost) ++ lrTail)
        [E.fmtDebug vl, E.fmtDebug vr]
        = headerPre ++ (exprString (.binary attrs l op r)
          ++ ("` failed\n     left: ".toList ++ (E.fmtDebug vl
            ++ ("\n    right: ".toList ++ E.fmtDebug vr)))) := by
      rw [printable_expr_string, escapeBraces_eq_dub]
      simp only [List.append_assoc]
      rw [render_noBrace_append noBrace_headerPre, render_dub_append]
      rw [show headerPost ++ lrTail = "` failed\n     left: ".toList
        ++ (lbrace :: rbrace :: ("\n    right: ".toList ++ [lbrace, rbrace])) from rfl]
      rw [render_noBrace_append (by unfold noBrace; decide), render_ph]
      rw [show ("\n    right: ".toList ++ [lbrace, rbrace] : Str)
        = "\n    right: ".toList ++ (lbrace :: rbrace :: ([] : Str)) from rfl]
      rw [render_noBrace_append (by unfold noBrace; decide), render_ph]
      simp [render]
    rw [hrender]

def eC1 : Expr := .binary [] (.lit ("1".toList)) ("==".toList) (.lit ("2".toList))

def outC1 : Output :=
  match assert_internal eC1 [] with
  | .ok o => o
  | .error _ => .falsePanic

theorem c1_witness :
    assert_internal eC1 [] = .ok outC1 ∧
    evalSites outC1 = [.lit ("1".toList), .lit ("2".toList)] ∧
    countSubstr leftNeedle ("assertion `1 == 2` failed".toList ++ lrTail) = 1 :=
  ⟨(c1_binary_rewrite [] (.lit ("1".toList)) ("==".toList) (.lit ("2".toList)) [] rfl rfl
      (by decide)).1,
   (c1_binary_rewrite [] (.lit ("1".toList)) ("==".toList) (.lit ("2".toList)) [] rfl rfl
      (by decide)).2.2.2.1,
   (c1_binary_rewrite [] (.lit ("1".toList)) ("==".toList) (.lit ("2".toList)) [] rfl rfl
      (by decide)).2.1⟩

/-! ## Claim C9 -/

/-- A concrete oracle environment: `a` is an integer variable holding 1,
the literal `2` holds 2, `==` is value equality, debug formatting prints
integers in decimal. -/
def E9 : Env where
  leafVal := fun e =>
    match e with
    | .path t => if t = "a".toList then some (.int 1) else none
    | .lit t => if t = "2".toList then some (.int 2) else none
    | _ => none
  opSem := fun op x y => if op = "==".toList then some (.bool (decide (x = y))) else none
  unSem := fun _ _ => none
  callSem := fun _ _ => none
  methodSem := fun _ _ _ => none
  indexSem := fun _ _ => none
  patMatch := fun _ _ => false
  fmtDebug := fun v =>
    match v with
    | .int n => natStr n.toNat
    | .bool b => if b then "true".toList else "false".toList
    | .other t => natStr t
  fmtMsg := fun s => s
  line := 1

def eC9 : Expr := .binary [] (.path ("a".toList)) ("==".toList) (.lit ("2".toList))

def outC9 : Output :=
  match assert_internal eC9 [] with
  | .ok o => o
  | .error _ => .falsePanic

/-- C9: the generated check tests the predicate positively, as an
`if predicate {} else { panic }`: whenever the (setup-evaluated) predicate is
true the check does nothing, and whenever it is false the panic branch fires
with the rendered report; the rewritten binary predicate keeps the original
operator unmodified (no `!` is ever applied); and for the input `a == 2`
with `a = 1` the failure report shows left `1` and right `2` under the
positive, unmodified comparison. -/
theorem c9_positive_check :
    (∀ (E : Env) (us : Bool) (setup : List SetupStmt) (cond : Cond) (msg : Str)
        (args : List Arg) (rs rs' : RunSt) (v : Value),
      execSetups E setup rs = some rs' → evalCond E rs' cond = some v →
      asBool v = some true →
      runOutput E (.check us setup cond msg args) rs = .ok) ∧
    (∀ (E : Env) (us : Bool) (setup : List SetupStmt) (cond : Cond) (msg : Str)
        (args : List Arg) (rs rs' : RunSt) (v : Value) (vals : List Str),
      execSetups E setup rs = some rs' → evalCond E rs' cond = some v →
      asBool v = some false → argVals E rs' args = some vals →
      runOutput E (.check us setup cond msg args) rs = .fails (render msg vals)) ∧
    (∀ (attrs : Str) (l : Expr) (op : Str) (r : Expr) (st : State),
      eval_expr (.binary attrs l op r) st =
        .ok (finishCheck ((st.add_var l lhsName leftDisp).2.add_var r rhsName rightDisp).2
          (.binC attrs (st.add_var l lhsName leftDisp).1 op
            ((st.add_var l lhsName leftDisp).2.add_var r rhsName rightDisp).1))) ∧
    assert_internal eC9 [] = .ok outC9 ∧
    runOutput E9 outC9 RunSt.empty
      = .fails ("assertion `a == 2` failed\n     left: 1\n    right: 2".toList) := by
  refine ⟨?_, ?_, fun attrs l op r st => eval_expr_binary attrs l op r st, rfl, rfl⟩
  · intro E us setup cond msg args rs rs' v hex hcond hab
    simp [runOutput, hex, hcond, hab]
  · intro E us setup cond msg args rs rs' v vals hex hcond hab hargs
    simp [runOutput, hex, hcond, hab, hargs]

theorem c9_witness :
    runOutput E9 outC9 RunSt.empty
      = .fails ("assertion `a == 2` failed\n     left: 1\n    right: 2".toList) ∧
    runOutput E9 (.check false []
      (.binC [] (.direct (.lit ("2".toList))) ("==".toList) (.direct (.lit ("2".toList))))
      [] []) RunSt.empty = .ok :=
  ⟨c9_positive_check.2.2.2.2,
   c9_positive_check.1 E9 false []
     (.binC [] (.direct (.lit ("2".toList))) ("==".toList) (.direct (.lit ("2".toList))))
     [] [] RunSt.empty RunSt.empty (.bool true) rfl rfl rfl⟩

/-! ## Claim C3 -/

theorem setupIdents_append (a b : List SetupStmt) :
    setupIdents (a ++ b) = setupIdents a ++ setupIdents b := by
  induction a with
  | nil => rfl
  | cons s rest ih =>
    cases s with
    | structDef => simpa [setupIdents] using ih
    | hoisted t => simpa [setupIdents] using ih
    | letWrap id n e => simp [setupIdents, ih]
    | letFmt id n acc => simp [setupIdents, ih]

theorem setupIdents_hoisted (l : List Stmt) :
    setupIdents (l.map SetupStmt.hoisted) = [] := by
  induction l with
  | nil => rfl
  | cons s rest ih => simpa [setupIdents] using ih

theorem add_var_idents (st : State) (e : Expr) (idn disp : Str) :
    ∃ Δ : List (Str × Nat),
      setupIdents (st.add_var e idn disp).2.setup = setupIdents st.setup ++ Δ ∧
      Δ.Nodup ∧
      (∀ x ∈ Δ, st.next_ident_id ≤ x.2 ∧ x.2 < (st.add_var e idn disp).2.next_ident_id) ∧
      st.next_ident_id ≤ (st.add_var e idn disp).2.next_ident_id := by
  by_cases hp : isPath e = true
  · obtain ⟨t, rfl⟩ := isPath_iff.1 hp
    rw [add_var_path]
    refine ⟨[(idn ++ strSuffix, st.next_ident_id)], ?_, by simp, ?_, by simp⟩
    · rw [show ({ st with
          setup := st.setup ++ [.letFmt st.next_ident_id (idn ++ strSuffix)
            (.direct (.path t))]
          pending_vars :=
            st.pending_vars ++ [(disp, .strVar st.next_ident_id (idn ++ strSuffix))]
          next_ident_id := st.next_ident_id + 1 } : State).setup
        = st.setup ++ [.letFmt st.next_ident_id (idn ++ strSuffix) (.direct (.path t))]
        from rfl, setupIdents_append]
      rfl
    · intro x hx
      simp at hx
      subst hx
      simp
  · have hpf : isPath e = false := by simpa using hp
    rw [add_var_not_path st hpf]
    refine ⟨[(idn, st.next_ident_id + 1), (idn ++ strSuffix, st.next_ident_id)],
      ?_, by simp, ?_, by simp⟩
    · rw [show ({ st with
          setup := st.setup ++
            [.letWrap (st.next_ident_id + 1) idn e,
             .letFmt st.next_ident_id (idn ++ strSuffix)
               (.wrapA (st.next_ident_id + 1) idn)]
          pending_vars :=
            st.pending_vars ++ [(disp, .strVar st.next_ident_id (idn ++ strSuffix))]
          next_ident_id := st.next_ident_id + 2 } : State).setup
        = st.setup ++ [.letWrap (st.next_ident_id + 1) idn e,
            .letFmt st.next_ident_id (idn ++ strSuffix)
              (.wrapA (st.next_ident_id + 1) idn)] from rfl, setupIdents_append]
      rfl
    · intro x hx
      simp at hx
      rcases hx with hx | hx <;> subst hx <;> simp

theorem delta_combine {Δ1 Δ2 : List (Str × Nat)} {n0 n1 n2 : Nat}
    (h1 : Δ1.Nodup) (hb1 : ∀ x ∈ Δ1, n0 ≤ x.2 ∧ x.2 < n1)
    (h2 : Δ2.Nodup) (hb2 : ∀ x ∈ Δ2, n1 ≤ x.2 ∧ x.2 < n2)
    (hn : n0 ≤ n1 ∧ n1 ≤ n2) :
    (Δ1 ++ Δ2).Nodup ∧ ∀ x ∈ Δ1 ++ Δ2, n0 ≤ x.2 ∧ x.2 < n2 := by
  constructor
  · refine List.Nodup.append h1 h2 ?_
    intro x hx1 hx2
    have b1 := hb1 x hx1
    have b2 := hb2 x hx2
    omega
  · intro x hx
    rcases List.mem_append.1 hx with hx | hx
    · have := hb1 x hx
      omega
    · have := hb2 x hx
      omega

theorem capture_args_idents (ilen : Nat) : ∀ (args : ExprList) (i : Nat) (st : State),
    ∃ Δ : List (Str × Nat),
      setupIdents (capture_args ilen i args st).2.setup = setupIdents st.setup ++ Δ ∧
      Δ.Nodup ∧
      (∀ x ∈ Δ, st.next_ident_id ≤ x.2
        ∧ x.2 < (capture_args ilen i args st).2.next_ident_id) ∧
      st.next_ident_id ≤ (capture_args ilen i args st).2.next_ident_id
  | .nil, i, st =>
    ⟨[], by simp; rfl, by simp, by intro x hx; simp at hx, by exact Nat.le_refl _⟩
  | .cons a rest, i, st => by
    rcases h1 : st.add_var a (argIdent i) (argDisplay ilen i) with ⟨acc, st1⟩
    obtain ⟨Δ1, d1, d2, d3, d4⟩ := add_var_idents st a (argIdent i) (argDisplay ilen i)
    rw [h1] at d1 d3 d4
    dsimp only at d1 d3 d4
    obtain ⟨Δ2, e1, e2, e3, e4⟩ := capture_args_idents ilen rest (i + 1) st1
    have hcap : capture_args ilen i (.cons a rest) st =
        ((capture_args ilen (i + 1) rest st1).1.cons acc,
          (capture_args ilen (i + 1) rest st1).2) := by
      show (match st.add_var a (argIdent i) (argDisplay ilen i) with
        | (acc, st) => match capture_args ilen (i + 1) rest st with
          | (accs, st) => (acc :: accs, st)) = _
      rw [h1]
    rw [hcap]
    dsimp only
    refine ⟨Δ1 ++ Δ2, ?_, ?_, ?_, by omega⟩
    · rw [e1, d1]
      simp
    · exact (delta_combine d2 d3 e2 e3 ⟨d4, e4⟩).1
    · exact (delta_combine d2 d3 e2 e3 ⟨d4, e4⟩).2

/-- Each scope chain of `out` extends `base` by fresh identifiers: distinct
among themselves and all at least `lo`. -/
def pathsFrom (out : Output) (base : List (Str × Nat)) (lo : Nat) : Prop :=
  ∀ p ∈ identPaths out, ∃ q, p = base ++ q ∧ q.Nodup ∧ ∀ x ∈ q, lo ≤ x.2

def armPathsFrom (outs : OutArms) (lo : Nat) : Prop :=
  ∀ p ∈ identPathsArms outs, p.Nodup ∧ ∀ x ∈ p, lo ≤ x.2

theorem delta_combine2 {Δ1 q : List (Str × Nat)} {n1 : Nat}
    (h1 : Δ1.Nodup) (hb1 : ∀ x ∈ Δ1, x.2 < n1)
    (h2 : q.Nodup) (hb2 : ∀ x ∈ q, n1 ≤ x.2) : (Δ1 ++ q).Nodup := by
  refine List.Nodup.append h1 h2 ?_
  intro x hx1 hx2
  have := hb1 x hx1
  have := hb2 x hx2
  omega

theorem identPaths_ifOut (us : Bool) (s : List SetupStmt) (attrs : Str) (acc : Access)
    (t e : Output) :
    identPaths (.ifOut us s attrs acc t e)
      = (identPaths t ++ identPaths e).map (fun p => setupIdents s ++ p) := rfl

theorem identPaths_matchOut (us : Bool) (s : List SetupStmt) (attrs : Str) (acc : Access)
    (arms : OutArms) :
    identPaths (.matchOut us s attrs acc arms)
      = (identPathsArms arms).map (fun p => setupIdents s ++ p) := rfl

theorem paths_pass_delta {st' : State} {cond : Cond} {out : Output}
    {base : List (Str × Nat)} {lo : Nat} {Δ : List (Str × Nat)}
    (hok : (Except.ok (finishCheck st' cond) : Except Err Output) = .ok out)
    (hid : setupIdents st'.setup = base ++ Δ)
    (hnd : Δ.Nodup) (hb : ∀ x ∈ Δ, lo ≤ x.2) :
    pathsFrom out base lo := by
  injection hok with h
  subst h
  intro p hp
  rw [show identPaths (finishCheck st' cond) = [setupIdents st'.setup] from rfl] at hp
  simp at hp
  exact ⟨Δ, by rw [hp, hid], hnd, hb⟩

theorem idents_main : ∀ n : Nat,
    (∀ e st out, sizeE e < n → eval_expr e st = .ok out →
      pathsFrom out (setupIdents st.setup) st.next_ident_id) ∧
    (∀ b st out, sizeB b < n → eval_block b st = .ok out →
      pathsFrom out (setupIdents st.setup) st.next_ident_id) ∧
    (∀ orig rest lead st out, sizeSL rest < n → eval_block_stmts orig rest lead st = .ok out →
      pathsFrom out (setupIdents st.setup) st.next_ident_id) ∧
    (∀ br st out, sizeE br < n → st.setup = [] → recurse_else_branches br st = .ok out →
      pathsFrom out (setupIdents st.setup) st.next_ident_id) ∧
    (∀ ss arms st outs, sizeA arms < n → eval_arms ss arms st = .ok outs →
      armPathsFrom outs st.next_ident_id) := by
  intro n
  induction n using Nat.strong_induction_on with
  | _ n IH =>
  refine ⟨?_, ?_, ?_, ?_, ?_⟩
  · intro e st out hsz hok
    cases e with
    | array t => exact paths_pass_delta hok (by simp) List.nodup_nil (by simp)
    | assign t q => exact errElim hok
    | asyncE t => exact errElim hok
    | awaitE t => exact paths_pass_delta hok (by simp) List.nodup_nil (by simp)
    | binary attrs l op r =>
      obtain ⟨Δ1, d1, d2, d3, d4⟩ := add_var_idents st l lhsName leftDisp
      obtain ⟨Δ2, e1, e2, e3, e4⟩ :=
        add_var_idents (st.add_var l lhsName leftDisp).2 r rhsName rightDisp
      rw [eval_expr_binary] at hok
      refine paths_pass_delta hok ?_ (delta_combine d2 d3 e2 e3 ⟨d4, e4⟩).1
        (fun x hx => ((delta_combine d2 d3 e2 e3 ⟨d4, e4⟩).2 x hx).1)
      rw [e1, d1]
      simp
    | blockE b =>
      rw [eval_expr_blockE] at hok
      exact (IH (sizeE (.blockE b)) hsz).2.1 b st out
        (by show sizeB b < sizeB b + 1; omega) hok
    | breakE t => exact errElim hok
    | call attrs f args =>
      cases args with
      | nil => exact paths_pass_delta hok (by simp) List.nodup_nil (by simp)
      | cons a rest =>
        obtain ⟨Δ, d1, d2, d3, d4⟩ := capture_args_idents
          ((natStr (exprListLen (.cons a rest) - 1)).length) (.cons a rest) 0 st
        rw [eval_expr_call_cons] at hok
        exact paths_pass_delta hok d1 d2 (fun x hx => (d3 x hx).1)
    | cast inner ty => exact paths_pass_delta hok (by simp) List.nodup_nil (by simp)
    | closure t => exact paths_pass_delta hok (by simp) List.nodup_nil (by simp)
    | constE b =>
      rw [eval_expr_constE] at hok
      exact (IH (sizeE (.constE b)) hsz).2.1 b st out
        (by show sizeB b < sizeB b + 1; omega) hok
    | continueE t => exact errElim hok
    | field t => exact paths_pass_delta hok (by simp) List.nodup_nil (by simp)
    | forLoop t => exact errElim hok
    | group inner =>
      rw [eval_expr_group] at hok
      exact (IH (sizeE (.group inner)) hsz).1 inner st out
        (by show sizeE inner < sizeE inner + 1; omega) hok
    | ifE attrs c tb eb =>
      cases eb with
      | none => exact paths_pass_delta hok (by simp) List.nodup_nil (by simp)
      | some el =>
        rw [eval_expr_ifE] at hok
        rcases hb : eval_block tb (st.add_var c condName
            (condDisp (printable_expr_string c))).2.fork with err | thenO
        · rw [hb] at hok; exact errElim hok
        · rw [hb] at hok
          rcases he : recurse_else_branches el (st.add_var c condName
              (condDisp (printable_expr_string c))).2.fork with err | elseO
          · rw [he] at hok; exact errElim hok
          · rw [he] at hok
            injection hok with h
            subst h
            obtain ⟨Δc, d1, d2, d3, d4⟩ :=
              add_var_idents st c condName (condDisp (printable_expr_string c))
            have hthen := (IH (sizeE (.ifE attrs c tb (some el))) hsz).2.1 tb _ thenO
              (by show sizeB tb < sizeE c + sizeB tb + sizeE el + 1; omega) hb
            have helse := (IH (sizeE (.ifE attrs c tb (some el))) hsz).2.2.2.1 el _ elseO
              (by show sizeE el < sizeE c + sizeB tb + sizeE el + 1; omega) rfl he
            intro p hp
            rw [identPaths_ifOut] at hp
            simp only [List.mem_map, List.mem_append] at hp
            obtain ⟨pt, hptm, hpe⟩ := hp
            have hbranch : pt.Nodup ∧
                ∀ x ∈ pt, (st.add_var c condName
                  (condDisp (printable_expr_string c))).2.next_ident_id ≤ x.2 := by
              rcases hptm with hptm | hptm
              · obtain ⟨q, hq1, hq2, hq3⟩ := hthen pt hptm
                have hpq : pt = q := by simpa [State.fork, setupIdents] using hq1
                rw [hpq]
                exact ⟨hq2, hq3⟩
              · obtain ⟨q, hq1, hq2, hq3⟩ := helse pt hptm
                have hpq : pt = q := by simpa [State.fork, setupIdents] using hq1
                rw [hpq]
                exact ⟨hq2, hq3⟩
            obtain ⟨hq2, hq3⟩ := hbranch
            refine ⟨Δc ++ pt, ?_, ?_, ?_⟩
            · rw [← hpe]
              rw [show setupIdents (st.add_var c condName
                  (condDisp (printable_expr_string c))).2.resolve_variables.setup
                = setupIdents (st.add_var c condName
                  (condDisp (printable_expr_string c))).2.setup from rfl, d1]
              simp
            · exact delta_combine2 d2 (fun x hx => (d3 x hx).2) hq2 hq3
            · intro x hx
              rcases List.mem_append.1 hx with hx | hx
              · exact (d3 x hx).1
              · have := hq3 x hx
                omega
    | indexE attrs obj idx =>
      rw [eval_expr_indexE] at hok
      by_cases hl : isLit idx = true
      · rw [if_pos hl] at hok
        exact paths_pass_delta hok (by simp) List.nodup_nil (by simp)
      · rw [if_neg hl] at hok
        obtain ⟨Δ, d1, d2, d3, d4⟩ := add_var_idents st idx indexName indexName
        exact paths_pass_delta hok d1 d2 (fun x hx => (d3 x hx).1)
    | infer t => exact paths_pass_delta hok (by simp) List.nodup_nil (by simp)
    | letE t => exact errElim hok
    | lit t => exact paths_pass_delta hok (by simp) List.nodup_nil (by simp)
    | loopE t => exact paths_pass_delta hok (by simp) List.nodup_nil (by simp)
    | macroE t => exact paths_pass_delta hok (by simp) List.nodup_nil (by simp)
    | matchE attrs scrut arms =>
      rw [eval_expr_matchE] at hok
      rcases ha : eval_arms (printable_expr_string scrut) arms
          (st.add_var scrut matchedName matchedDisp).2.resolve_variables with err | armsO
      · rw [ha] at hok; exact errElim hok
      · rw [ha] at hok
        injection hok with h
        subst h
        obtain ⟨Δm, d1, d2, d3, d4⟩ := add_var_idents st scrut matchedName matchedDisp
        have harms := (IH (sizeE (.matchE attrs scrut arms)) hsz).2.2.2.2
          (printable_expr_string scrut) arms _ armsO
          (by show sizeA arms < sizeE scrut + sizeA arms + 1; omega) ha
        intro p hp
        rw [identPaths_matchOut] at hp
        simp only [List.mem_map] at hp
        obtain ⟨pt, hptm, hpe⟩ := hp
        obtain ⟨hq2, hq3⟩ := harms pt hptm
        have hres : (st.add_var scrut matchedName
            matchedDisp).2.resolve_variables.next_ident_id
          = (st.add_var scrut matchedName matchedDisp).2.next_ident_id := rfl
        rw [hres] at hq3
        refine ⟨Δm ++ pt, ?_, ?_, ?_⟩
        · rw [← hpe]
          rw [show setupIdents (st.add_var scrut matchedName
              matchedDisp).2.resolve_variables.setup
            = setupIdents (st.add_var scrut matchedName matchedDisp).2.setup from rfl, d1]
          simp
        · exact delta_combine2 d2 (fun x hx => (d3 x hx).2) hq2 hq3
        · intro x hx
          rcases List.mem_append.1 hx with hx | hx
          · exact (d3 x hx).1
          · have := hq3 x hx
            omega
    | methodCall attrs recv m tf args =>
      obtain ⟨Δ1, d1, d2, d3, d4⟩ := add_var_idents st recv objectName objectName
      obtain ⟨Δ2, e1, e2, e3, e4⟩ := capture_args_idents
        ((natStr (exprListLen args - 1)).length) args 0
        (st.add_var recv objectName objectName).2
      rw [eval_expr_methodCall] at hok
      refine paths_pass_delta hok ?_ (delta_combine d2 d3 e2 e3 ⟨d4, e4⟩).1
        (fun x hx => ((delta_combine d2 d3 e2 e3 ⟨d4, e4⟩).2 x hx).1)
      rw [e1, d1]
      simp
    | paren inner =>
      rw [eval_expr_paren] at hok
      exact (IH (sizeE (.paren inner)) hsz).1 inner st out
        (by show sizeE inner < sizeE inner + 1; omega) hok
    | path t => exact paths_pass_delta hok (by simp) List.nodup_nil (by simp)
    | range t => exact paths_pass_delta hok (by simp) List.nodup_nil (by simp)
    | reference t => exact paths_pass_delta hok (by simp) List.nodup_nil (by simp)
    | repeatE t => exact paths_pass_delta hok (by simp) List.nodup_nil (by simp)
    | returnE t => exact errElim hok
    | structE t => exact errElim hok
    | tryE t => exact paths_pass_delta hok (by simp) List.nodup_nil (by simp)
    | tuple t => exact paths_pass_delta hok (by simp) List.nodup_nil (by simp)
    | unary attrs op a =>
      rw [eval_expr_unary] at hok
      obtain ⟨Δ, d1, d2, d3, d4⟩ := add_var_idents st a originalName originalName
      exact paths_pass_delta hok d1 d2 (fun x hx => (d3 x hx).1)
    | unsafeE attrs b =>
      rw [eval_expr_unsafeE] at hok
      exact (IH (sizeE (.unsafeE attrs b)) hsz).2.1 b
        {st with possibly_unsafe_flag := true} out
        (by show sizeB b < sizeB b + 1; omega) hok
    | verbatim t => exact paths_pass_delta hok (by simp) List.nodup_nil (by simp)
    | whileE t => exact errElim hok
  · intro b st out hsz hok
    cases b with
    | mk stmts =>
      rw [eval_block_eq] at hok
      exact (IH (sizeB (.mk stmts)) hsz).2.2.1 stmts stmts [] st.resolve_variables out
        (by show sizeSL stmts < sizeSL stmts + 1; omega) hok
  · intro orig rest lead st out hsz hok
    cases rest with
    | nil =>
      rw [eval_block_stmts_nil] at hok
      injection hok with h
      subst h
      intro p hp
      rw [show identPaths (.blockPass st.possibly_unsafe_flag st.setup orig)
        = [setupIdents st.setup] from rfl] at hp
      simp at hp
      exact ⟨[], by simp [hp], List.nodup_nil, by simp⟩
    | cons s rest2 =>
      cases rest2 with
      | nil =>
        cases s with
        | exprStmt e semi =>
          cases semi with
          | false =>
            rw [eval_block_stmts_last] at hok
            have := (IH (sizeSL (.cons (.exprStmt e false) .nil)) hsz).1 e _ out
              (by show sizeE e < sizeE e + 1 + 1 + 1; omega) hok
            intro p hp
            obtain ⟨q, hq1, hq2, hq3⟩ := this p hp
            refine ⟨q, ?_, hq2, hq3⟩
            rw [hq1]
            rw [show ({st.add_cause (blockCause (printable_expr_string e)) with
                setup := (st.add_cause (blockCause (printable_expr_string e))).setup
                  ++ lead.map SetupStmt.hoisted} : State).setup
              = st.setup ++ lead.map SetupStmt.hoisted from rfl, setupIdents_append,
              setupIdents_hoisted]
            simp
          | true =>
            rw [eval_block_stmts_last_semi] at hok
            injection hok with h
            subst h
            intro p hp
            rw [show identPaths (.blockPass st.possibly_unsafe_flag st.setup orig)
              = [setupIdents st.setup] from rfl] at hp
            simp at hp
            exact ⟨[], by simp [hp], List.nodup_nil, by simp⟩
        | other t =>
          rw [eval_block_stmts_last_other] at hok
          injection hok with h
          subst h
          intro p hp
          rw [show identPaths (.blockPass st.possibly_unsafe_flag st.setup orig)
            = [setupIdents st.setup] from rfl] at hp
          simp at hp
          exact ⟨[], by simp [hp], List.nodup_nil, by simp⟩
      | cons s2 r2 =>
        rw [eval_block_stmts_cons] at hok
        exact (IH (sizeSL (.cons s (.cons s2 r2))) hsz).2.2.1 orig (.cons s2 r2)
          (lead ++ [s]) st out
          (by show sizeSL (.cons s2 r2) < sizeS s + sizeSL (.cons s2 r2) + 1; omega) hok
  · intro br st out hsz hse hok
    cases br with
    | blockE b =>
      rw [recurse_else_blockE] at hok
      rcases hb : eval_block b st with err | body
      · rw [hb] at hok; exact errElim hok
      · rw [hb] at hok
        injection hok with h
        subst h
        have := (IH (sizeE (.blockE b)) hsz).2.1 b st body
          (by show sizeB b < sizeB b + 1; omega) hb
        intro p hp
        exact this p hp
    | ifE attrs c tb eb =>
      cases eb with
      | none =>
        injection hok with h
        subst h
        intro p hp
        rw [show identPaths (.rawElse (.ifE attrs c tb none)) = [[]] from rfl] at hp
        simp at hp
        refine ⟨[], ?_, List.nodup_nil, by simp⟩
        rw [hp, hse]
        rfl
      | some el =>
        rw [recurse_else_ifE] at hok
        rcases hb : eval_block tb (st.add_var c condName
            (condDisp (printable_expr_string c))).2.fork with err | thenO
        · rw [hb] at hok; exact errElim hok
        · rw [hb] at hok
          rcases he : recurse_else_branches el (st.add_var c condName
              (condDisp (printable_expr_string c))).2.fork with err | elseO
          · rw [he] at hok; exact errElim hok
          · rw [he] at hok
            injection hok with h
            subst h
            obtain ⟨Δc, d1, d2, d3, d4⟩ :=
              add_var_idents st c condName (condDisp (printable_expr_string c))
            have hthen := (IH (sizeE (.ifE attrs c tb (some el))) hsz).2.1 tb _ thenO
              (by show sizeB tb < sizeE c + sizeB tb + sizeE el + 1; omega) hb
            have helse := (IH (sizeE (.ifE attrs c tb (some el))) hsz).2.2.2.1 el _ elseO
              (by show sizeE el < sizeE c + sizeB tb + sizeE el + 1; omega) rfl he
            intro p hp
            rw [identPaths_ifOut] at hp
            simp only [List.mem_map, List.mem_append] at hp
            obtain ⟨pt, hptm, hpe⟩ := hp
            have hbranch : pt.Nodup ∧
                ∀ x ∈ pt, (st.add_var c condName
                  (condDisp (printable_expr_string c))).2.next_ident_id ≤ x.2 := by
              rcases hptm with hptm | hptm
              · obtain ⟨q, hq1, hq2, hq3⟩ := hthen pt hptm
                have hpq : pt = q := by simpa [State.fork, setupIdents] using hq1
                rw [hpq]
                exact ⟨hq2, hq3⟩
              · obtain ⟨q, hq1, hq2, hq3⟩ := helse pt hptm
                have hpq : pt = q := by simpa [State.fork, setupIdents] using hq1
                rw [hpq]
                exact ⟨hq2, hq3⟩
            obtain ⟨hq2, hq3⟩ := hbranch
            refine ⟨Δc ++ pt, ?_, ?_, ?_⟩
            · rw [← hpe]
              rw [show setupIdents (st.add_var c condName
                  (condDisp (printable_expr_string c))).2.resolve_variables.setup
                = setupIdents (st.add_var c condName
                  (condDisp (printable_expr_string c))).2.setup from rfl, d1]
              simp
            · exact delta_combine2 d2 (fun x hx => (d3 x hx).2) hq2 hq3
            · intro x hx
              rcases List.mem_append.1 hx with hx | hx
              · exact (d3 x hx).1
              · have := hq3 x hx
                omega
    | array t => exact errElim hok
    | assign t q => exact errElim hok
    | asyncE t => exact errElim hok
    | awaitE t => exact errElim hok
    | binary attrs l op r => exact errElim hok
    | breakE t => exact errElim hok
    | call attrs f args => exact errElim hok
    | cast inner ty => exact errElim hok
    | closure t => exact errElim hok
    | constE b => exact errElim hok
    | continueE t => exact errElim hok
    | field t => exact errElim hok
    | forLoop t => exact errElim hok
    | group inner => exact errElim hok
    | indexE attrs obj idx => exact errElim hok
    | infer t => exact errElim hok
    | letE t => exact errElim hok
    | lit t => exact errElim hok
    | loopE t => exact errElim hok
    | macroE t => exact errElim hok
    | matchE attrs scrut arms => exact errElim hok
    | methodCall attrs recv m tf args => exact errElim hok
    | paren inner => exact errElim hok
    | path t => exact errElim hok
    | range t => exact errElim hok
    | reference t => exact errElim hok
    | repeatE t => exact errElim hok
    | returnE t => exact errElim hok
    | structE t => exact errElim hok
    | tryE t => exact errElim hok
    | tuple t => exact errElim hok
    | unary attrs op a => exact errElim hok
    | unsafeE attrs b => exact errElim hok
    | verbatim t => exact errElim hok
    | whileE t => exact errElim hok
  · intro ss arms st outs hsz hok
    cases arms with
    | nil =>
      rw [show eval_arms ss .nil st = .ok .nil from rfl] at hok
      injection hok with h
      subst h
      intro p hp
      simp [identPathsArms] at hp
    | cons attrs pat body rest =>
      rw [eval_arms_cons] at hok
      rcases hb : eval_expr body (st.fork.add_cause (matchCause ss pat body)) with err | o
      · rw [hb] at hok; exact errElim hok
      · rw [hb] at hok
        rcases hr : eval_arms ss rest st with err | restO
        · rw [hr] at hok; exact errElim hok
        · rw [hr] at hok
          injection hok with h
          subst h
          have h1 := (IH (sizeA (.cons attrs pat body rest)) hsz).1 body _ o
            (by show sizeE body < sizeE body + sizeA rest + 1; omega) hb
          have h2 := (IH (sizeA (.cons attrs pat body rest)) hsz).2.2.2.2 ss rest st restO
            (by show sizeA rest < sizeE body + sizeA rest + 1; omega) hr
          intro p hp
          rw [show identPathsArms (.cons attrs pat o restO)
            = identPaths o ++ identPathsArms restO from rfl] at hp
          rcases List.mem_append.1 hp with hp | hp
          · obtain ⟨q, hq1, hq2, hq3⟩ := h1 p hp
            have hq1' : p = q := by
              simpa [State.fork, State.add_cause, setupIdents] using hq1
            subst hq1'
            exact ⟨hq2, hq3⟩
          · exact h2 p hp

def exC3 : Expr :=
  .ifE [] (.path ("c".toList))
    (.mk (.cons (.exprStmt (.binary [] (.lit ("1".toList)) ("==".toList)
      (.lit ("2".toList))) false) .nil))
    (some (.blockE (.mk (.cons (.exprStmt (.binary [] (.lit ("3".toList)) ("==".toList)
      (.lit ("4".toList))) false) .nil))))

def outC3 : Output :=
  match assert_internal exC3 [] with
  | .ok o => o
  | .error _ => .falsePanic

set_option maxRecDepth 100000 in
/-- C3 counterexample: for the accepted input `if c { 1 == 2 } else { 3 == 4 }`
the traversal forks the state for each branch, and `State.fork` copies
`next_ident_id`, so the sibling branches both allocate the identifiers
`__one_assert_lhs_str_1`, `__one_assert_lhs_2`, `__one_assert_rhs_str_3` and
`__one_assert_rhs_4`: collecting every synthetic identifier produced anywhere
in this single expansion yields duplicates, refuting global uniqueness. -/
theorem c3_counterexample :
    assert_internal exC3 [] = .ok outC3 ∧ ¬ (allIdents outC3).Nodup :=
  ⟨rfl, by decide⟩

set_option maxRecDepth 100000 in
/-- C3 (amended): identifier uniqueness is per lexical scope chain, not global.
For every input accepted by `assert_internal`, along each scope chain of the
generated code (the setup bindings of an enclosing `if`/`match` output followed
by the setup bindings of one chosen branch or arm, recursively), no synthetic
identifier is bound twice, so the generated bindings never collide within any
one runtime scope; sibling forked branches, however, may reuse the same ids
(see the counterexample), which is sound because their scopes are disjoint. -/
theorem c3_scoped_uniqueness (e : Expr) (fmt : Str) (out : Output)
    (h : assert_internal e fmt = .ok out) :
    ∀ p ∈ identPaths out, p.Nodup := by
  by_cases h1 : printable_expr_string e = trueStr
  · unfold assert_internal at h
    rw [if_pos h1] at h
    injection h with h
    subst h
    intro p hp
    rw [show identPaths Output.trueFlavor = [[]] from rfl] at hp
    simp at hp
    rw [hp]
    exact List.nodup_nil
  · by_cases h2 : printable_expr_string e = falseStr
    · unfold assert_internal at h
      rw [if_neg h1, if_pos h2] at h
      injection h with h
      subst h
      intro p hp
      rw [show identPaths Output.falsePanic = [[]] from rfl] at hp
      simp at hp
      rw [hp]
      exact List.nodup_nil
    · rw [assert_internal_eq e fmt h1 h2] at h
      have hmain := (idents_main (sizeE e + 1)).1 e (initState e fmt) out (by omega) h
      intro p hp
      obtain ⟨q, hq1, hq2, hq3⟩ := hmain p hp
      rw [hq1]
      have hs : setupIdents (initState e fmt).setup = [] := by
        rw [(initState_fields e fmt).1]
        rfl
      rw [hs]
      simpa using hq2

set_option maxRecDepth 100000 in
theorem c3_witness :
    assert_internal exC3 [] = .ok outC3 ∧ ∀ p ∈ identPaths outC3, p.Nodup :=
  ⟨rfl, c3_scoped_uniqueness exC3 [] outC3 rfl⟩

/-! ## Claim C8: runtime preservation when the condition is true -/

theorem execSetups_cons (E : Env) (s : SetupStmt) (rest : List SetupStmt) (rs : RunSt) :
    execSetups E (s :: rest) rs
      = match execSetup E rs s with
        | none => none
        | some rs1 => execSetups E rest rs1 := rfl

theorem execSetups_append (E : Env) (s1 s2 : List SetupStmt) (rs : RunSt) :
    execSetups E (s1 ++ s2) rs
      = match execSetups E s1 rs with
        | none => none
        | some rs1 => execSetups E s2 rs1 := by
  induction s1 generalizing rs with
  | nil => rfl
  | cons s r ih =>
    rw [List.cons_append, execSetups_cons, execSetups_cons]
    cases execSetup E rs s with
    | none => rfl
    | some rs1 => exact ih rs1

theorem execSetups_hoisted (E : Env) (l : List Stmt) (rs : RunSt) :
    execSetups E (l.map SetupStmt.hoisted) rs = some rs := by
  induction l with
  | nil => rfl
  | cons s r ih =>
    rw [List.map_cons, execSetups_cons]
    exact ih

/-- Wrapper-store lookups below `n` agree between `rs` and `rs'`. -/
def valsBelow (n : Nat) (rs rs' : RunSt) : Prop :=
  ∀ id, id < n → rs'.vals.lookup id = rs.vals.lookup id

/-- The access only reads wrappers numbered below `n` (direct accesses read
none). -/
def accLow (n : Nat) : Access → Prop
  | .direct _ => True
  | .wrapA id _ => id < n

theorem valsBelow_refl (n : Nat) (rs : RunSt) : valsBelow n rs rs := fun _ _ => rfl

theorem valsBelow_trans {n1 n2 : Nat} {rs1 rs2 rs3 : RunSt} (h12 : valsBelow n1 rs1 rs2)
    (h23 : valsBelow n2 rs2 rs3) (hn : n1 ≤ n2) : valsBelow n1 rs1 rs3 :=
  fun id hid => (h23 id (lt_of_lt_of_le hid hn)).trans (h12 id hid)

theorem evalAccess_stable (E : Env) {rs rs' : RunSt} {n : Nat} {acc : Access} {v : Value}
    (ha : evalAccess E rs acc = some v) (hl : accLow n acc) (hb : valsBelow n rs rs') :
    evalAccess E rs' acc = some v := by
  cases acc with
  | direct e => exact ha
  | wrapA id nm =>
    show rs'.vals.lookup id = some v
    rw [hb id hl]
    exact ha

theorem accLow_mono {n1 n2 : Nat} {acc : Access} (h : accLow n1 acc) (hn : n1 ≤ n2) :
    accLow n2 acc := by
  cases acc with
  | direct e => trivial
  | wrapA id nm =>
    show id < n2
    have : id < n1 := h
    omega

/-- Runtime effect of the setup produced by one `add_var` capture: given that
the captured expression has value `v`, the delta executes from any store,
yields the access evaluating to `v`, touches only fresh wrapper numbers, and
the access reads only wrappers below the new counter. -/
theorem add_var_run (E : Env) (st : State) (e : Expr) (idn disp : Str) (v : Value)
    (hv : evalE E e = some v) (rs : RunSt) :
    ∃ Δ rs',
      (st.add_var e idn disp).2.setup = st.setup ++ Δ ∧
      execSetups E Δ rs = some rs' ∧
      evalAccess E rs' (st.add_var e idn disp).1 = some v ∧
      accLow (st.add_var e idn disp).2.next_ident_id (st.add_var e idn disp).1 ∧
      valsBelow st.next_ident_id rs rs' ∧
      st.next_ident_id ≤ (st.add_var e idn disp).2.next_ident_id := by
  by_cases hp : isPath e = true
  · obtain ⟨t, rfl⟩ := isPath_iff.1 hp
    rw [add_var_path]
    refine ⟨[.letFmt st.next_ident_id (idn ++ strSuffix) (.direct (.path t))],
      { rs with strs := (st.next_ident_id, E.fmtDebug v) :: rs.strs },
      rfl, ?_, hv, trivial, fun id hid => rfl, by dsimp only; omega⟩
    simp [execSetups, execSetup, evalAccess, hv]
  · have hpf : isPath e = false := by simpa using hp
    rw [add_var_not_path st hpf]
    refine ⟨[.letWrap (st.next_ident_id + 1) idn e,
        .letFmt st.next_ident_id (idn ++ strSuffix) (.wrapA (st.next_ident_id + 1) idn)],
      { rs with
        vals := (st.next_ident_id + 1, v) :: rs.vals
        strs := (st.next_ident_id, E.fmtDebug v) :: rs.strs },
      rfl, ?_, ?_, ?_, ?_, by dsimp only; omega⟩
    · simp [execSetups, execSetup, evalAccess, hv, List.lookup]
    · show ((st.next_ident_id + 1, v) :: rs.vals).lookup (st.next_ident_id + 1) = some v
      simp [List.lookup]
    · show st.next_ident_id + 1 < st.next_ident_id + 2
      omega
    · intro id hid
      show ((st.next_ident_id + 1, v) :: rs.vals).lookup id = rs.vals.lookup id
      have hne : (id == st.next_ident_id + 1) = false := by
        simp
        omega
      simp [List.lookup, hne]

/-- Runtime effect of the setup produced by the argument-capture loop: given
argument values `vs`, the concatenated deltas execute from any store and the
returned access list evaluates to exactly `vs`, in order. -/
theorem capture_args_run (E : Env) (ilen : Nat) : ∀ (args : ExprList) (i : Nat) (st : State)
    (vs : List Value), evalArgsV E args = some vs → ∀ rs : RunSt,
    ∃ Δ rs',
      (capture_args ilen i args st).2.setup = st.setup ++ Δ ∧
      execSetups E Δ rs = some rs' ∧
      evalAccList E rs' (capture_args ilen i args st).1 = some vs ∧
      valsBelow st.next_ident_id rs rs' ∧
      st.next_ident_id ≤ (capture_args ilen i args st).2.next_ident_id
  | .nil, i, st, vs, hv, rs => by
    have hvs : [] = vs := by
      have h := hv
      rw [show evalArgsV E .nil = some [] from rfl] at h
      injection h
    subst hvs
    exact ⟨[], rs, by simp [capture_args], rfl, rfl, valsBelow_refl _ _, Nat.le_refl _⟩
  | .cons a rest, i, st, vs, hv, rs => by
    have hv' := hv
    rw [show evalArgsV E (.cons a rest)
      = (match evalE E a with
         | none => none
         | some v =>
           match evalArgsV E rest with
           | none => none
           | some ws => some (v :: ws)) from rfl] at hv'
    rcases ha : evalE E a with _ | va
    · rw [ha] at hv'
      exact absurd hv' (by simp)
    · rw [ha] at hv'
      rcases hr : evalArgsV E rest with _ | vrest
      · rw [hr] at hv'
        exact absurd hv' (by simp)
      · rw [hr] at hv'
        injection hv' with h
        subst h
        rcases h1 : st.add_var a (argIdent i) (argDisplay ilen i) with ⟨acc, st1⟩
        obtain ⟨Δ1, rs1, d1, d2, d3, d4, d5, d6⟩ :=
          add_var_run E st a (argIdent i) (argDisplay ilen i) va ha rs
        rw [h1] at d1 d3 d4 d6
        dsimp only at d1 d3 d4 d6
        obtain ⟨Δ2, rs2, e1, e2, e3, e5, e6⟩ :=
          capture_args_run E ilen rest (i + 1) st1 vrest hr rs1
        have hcap : capture_args ilen i (.cons a rest) st =
            ((capture_args ilen (i + 1) rest st1).1.cons acc,
              (capture_args ilen (i + 1) rest st1).2) := by
          show (match st.add_var a (argIdent i) (argDisplay ilen i) with
            | (acc, st) => match capture_args ilen (i + 1) rest st with
              | (accs, st) => (acc :: accs, st)) = _
          rw [h1]
        rw [hcap]
        dsimp only
        refine ⟨Δ1 ++ Δ2, rs2, ?_, ?_, ?_, ?_, by omega⟩
        · rw [e1, d1]
          simp
        · rw [execSetups_append, d2]
          exact e2
        · have hacc2 : evalAccess E rs2 acc = some va := evalAccess_stable E d3 d4 e5
          show (match evalAccess E rs2 acc with
            | none => none
            | some v =>
              match evalAccList E rs2 (capture_args ilen (i + 1) rest st1).1 with
              | none => none
              | some ws => some (v :: ws)) = _
          rw [hacc2, e3]
        · exact valsBelow_trans d5 e5 d6

theorem runOutput_check (E : Env) (us : Bool) (setup : List SetupStmt) (cond : Cond)
    (msg : Str) (args : List Arg) (rs : RunSt) :
    runOutput E (.check us setup cond msg args) rs
      = match execSetups E setup rs with
        | none => .stuck
        | some rs1 =>
          match evalCond E rs1 cond with
          | none => .stuck
          | some v =>
            match asBool v with
            | none => .stuck
            | some true => .ok
            | some false =>
              match argVals E rs1 args with
              | none => .stuck
              | some vals => .fails (render msg vals) := rfl

theorem runOutput_ifOut (E : Env) (us : Bool) (setup : List SetupStmt) (attrs : Str)
    (acc : Access) (t e : Output) (rs : RunSt) :
    runOutput E (.ifOut us setup attrs acc t e) rs
      = match execSetups E setup rs with
        | none => .stuck
        | some rs1 =>
          match evalAccess E rs1 acc with
          | none => .stuck
          | some v =>
            match asBool v with
            | none => .stuck
            | some true => runOutput E t rs1
            | some false => runOutput E e rs1 := rfl

theorem runOutput_matchOut (E : Env) (us : Bool) (setup : List SetupStmt) (attrs : Str)
    (acc : Access) (arms : OutArms) (rs : RunSt) :
    runOutput E (.matchOut us setup attrs acc arms) rs
      = match execSetups E setup rs with
        | none => .stuck
        | some rs1 =>
          match evalAccess E rs1 acc with
          | none => .stuck
          | some v => runArms E v arms rs1 := rfl

theorem runOutput_braced (E : Env) (o : Output) (rs : RunSt) :
    runOutput E (.braced o) rs = runOutput E o rs := rfl

theorem runArms_cons (E : Env) (v : Value) (attrs pat : Str) (body : Output)
    (rest : OutArms) (rs : RunSt) :
    runArms E v (.cons attrs pat body rest) rs
      = if E.patMatch pat v then runOutput E body rs else runArms E v rest rs := rfl

theorem execSetups_append3 {E : Env} {s1 s2 : List SetupStmt} {rs rs1 rs2 : RunSt}
    (h1 : execSetups E s1 rs = some rs1) (h2 : execSetups E s2 rs1 = some rs2) :
    execSetups E (s1 ++ s2) rs = some rs2 := by
  rw [execSetups_append, h1]
  exact h2

theorem run_check_ok {E : Env} {us : Bool} {setup : List SetupStmt} {cond : Cond}
    {msg : Str} {args : List Arg} {rs rs' : RunSt}
    (hs : execSetups E setup rs = some rs')
    (hc : evalCond E rs' cond = some (.bool true)) :
    runOutput E (.check us setup cond msg args) rs = .ok := by
  rw [runOutput_check, hs]
  show (match evalCond E rs' cond with
    | none => Res.stuck
    | some v =>
      match asBool v with
      | none => Res.stuck
      | some true => Res.ok
      | some false =>
        match argVals E rs' args with
        | none => Res.stuck
        | some vals => Res.fails (render msg vals)) = Res.ok
  rw [hc]
  rfl

theorem run_finishCheck {E : Env} {st' : State} {cond : Cond} {out : Output}
    (hok : (Except.ok (finishCheck st' cond) : Except Err Output) = .ok out)
    {rs rs' : RunSt}
    (hs : execSetups E st'.setup rs = some rs')
    (hc : evalCond E rs' cond = some (.bool true)) :
    runOutput E out rs = .ok := by
  injection hok with h
  subst h
  rw [finishCheck_eq]
  exact run_check_ok hs hc

theorem evalCond_binC {E : Env} {rs : RunSt} {acc1 acc2 : Access} {op attrs : Str}
    {v1 v2 : Value}
    (h1 : evalAccess E rs acc1 = some v1) (h2 : evalAccess E rs acc2 = some v2) :
    evalCond E rs (.binC attrs acc1 op acc2) = E.opSem op v1 v2 := by
  show (match evalAccess E rs acc1 with
    | none => none
    | some vl =>
      match evalAccess E rs acc2 with
      | none => none
      | some vr => E.opSem op vl vr) = _
  rw [h1]
  show (match evalAccess E rs acc2 with
    | none => none
    | some vr => E.opSem op v1 vr) = _
  rw [h2]

theorem evalCond_unaryC {E : Env} {rs : RunSt} {acc : Access} {op attrs : Str} {v : Value}
    (h : evalAccess E rs acc = some v) :
    evalCond E rs (.unaryC attrs op acc) = E.unSem op v := by
  show (match evalAccess E rs acc with
    | none => none
    | some w => E.unSem op w) = _
  rw [h]

theorem evalCond_callC {E : Env} {rs : RunSt} {accs : List Access} {f : Expr} {attrs : Str}
    {vs : List Value} (h : evalAccList E rs accs = some vs) :
    evalCond E rs (.callC attrs f accs) = E.callSem f vs := by
  show (match evalAccList E rs accs with
    | none => none
    | some ws => E.callSem f ws) = _
  rw [h]

theorem evalCond_methodC {E : Env} {rs : RunSt} {acc : Access} {accs : List Access}
    {m tf attrs : Str} {vo : Value} {vs : List Value}
    (h1 : evalAccess E rs acc = some vo) (h2 : evalAccList E rs accs = some vs) :
    evalCond E rs (.methodC attrs acc m tf accs) = E.methodSem (m ++ tf) vo vs := by
  show (match evalAccess E rs acc with
    | none => none
    | some w =>
      match evalAccList E rs accs with
      | none => none
      | some ws => E.methodSem (m ++ tf) w ws) = _
  rw [h1]
  show (match evalAccList E rs accs with
    | none => none
    | some ws => E.methodSem (m ++ tf) vo ws) = _
  rw [h2]

theorem evalCond_indexC {E : Env} {rs : RunSt} {obj : Expr} {acc : Access} {attrs : Str}
    {vo vi : Value}
    (h1 : evalE E obj = some vo) (h2 : evalAccess E rs acc = some vi) :
    evalCond E rs (.indexC attrs obj acc) = E.indexSem vo vi := by
  show (match evalE E obj with
    | none => none
    | some w =>
      match evalAccess E rs acc with
      | none => none
      | some wi => E.indexSem w wi) = _
  rw [h1]
  show (match evalAccess E rs acc with
    | none => none
    | some wi => E.indexSem vo wi) = _
  rw [h2]

theorem run_main (E : Env) : ∀ n : Nat,
    (∀ e st out, sizeE e < n → eval_expr e st = .ok out →
      evalE E e = some (.bool true) →
      ∀ rs rs0, execSetups E st.setup rs = some rs0 → runOutput E out rs = .ok) ∧
    (∀ b st out, sizeB b < n → eval_block b st = .ok out →
      blockVal E b = some (.bool true) →
      ∀ rs rs0, execSetups E st.setup rs = some rs0 → runOutput E out rs = .ok) ∧
    (∀ orig rest lead st out, sizeSL rest < n → eval_block_stmts orig rest lead st = .ok out →
      stmtsVal E rest = some (.bool true) →
      ∀ rs rs0, execSetups E st.setup rs = some rs0 → runOutput E out rs = .ok) ∧
    (∀ br st out, sizeE br < n → recurse_else_branches br st = .ok out →
      evalE E br = some (.bool true) →
      ∀ rs rs0, execSetups E st.setup rs = some rs0 → runOutput E out rs = .ok) ∧
    (∀ ss arms st outs, sizeA arms < n → eval_arms ss arms st = .ok outs →
      ∀ v, matchVal E v arms = some (.bool true) →
      ∀ rs, runArms E v outs rs = .ok) := by
  intro n
  induction n using Nat.strong_induction_on with
  | _ n IH =>
  refine ⟨?_, ?_, ?_, ?_, ?_⟩
  · intro e st out hsz hok hv rs rs0 hs
    cases e with
    | array t => exact run_finishCheck hok hs hv
    | assign t q => exact errElim hok
    | asyncE t => exact errElim hok
    | awaitE t => exact run_finishCheck hok hs hv
    | binary attrs l op r =>
      rw [eval_expr_binary] at hok
      rw [show evalE E (.binary attrs l op r)
        = (match evalE E l with
           | none => none
           | some vl =>
             match evalE E r with
             | none => none
             | some vr => E.opSem op vl vr) from rfl] at hv
      rcases hl : evalE E l with _ | vl
      · rw [hl] at hv
        exact absurd hv (by simp)
      · rw [hl] at hv
        rcases hr : evalE E r with _ | vr
        · rw [hr] at hv
          exact absurd hv (by simp)
        · rw [hr] at hv
          obtain ⟨Δ1, rs1, d1, d2, d3, d4, d5, d6⟩ :=
            add_var_run E st l lhsName leftDisp vl hl rs0
          obtain ⟨Δ2, rs2, e1, e2, e3, e4, e5, e6⟩ :=
            add_var_run E (st.add_var l lhsName leftDisp).2 r rhsName rightDisp vr hr rs1
          have hex : execSetups E
              ((st.add_var l lhsName leftDisp).2.add_var r rhsName rightDisp).2.setup rs
              = some rs2 := by
            rw [e1, d1, List.append_assoc]
            exact execSetups_append3 hs (execSetups_append3 d2 e2)
          have hlacc : evalAccess E rs2 (st.add_var l lhsName leftDisp).1 = some vl :=
            evalAccess_stable E d3 d4 e5
          refine run_finishCheck hok hex ?_
          rw [evalCond_binC hlacc e3]
          exact hv
    | blockE b =>
      rw [eval_expr_blockE] at hok
      exact (IH (sizeE (.blockE b)) hsz).2.1 b st out
        (by show sizeB b < sizeB b + 1; omega) hok hv rs rs0 hs
    | breakE t => exact errElim hok
    | call attrs f args =>
      cases args with
      | nil => exact run_finishCheck hok hs hv
      | cons a rest =>
        rw [eval_expr_call_cons] at hok
        rw [show evalE E (.call attrs f (.cons a rest))
          = (match evalArgsV E (.cons a rest) with
             | none => none
             | some vs => E.callSem f vs) from rfl] at hv
        rcases hargs : evalArgsV E (.cons a rest) with _ | vs
        · rw [hargs] at hv
          exact absurd hv (by simp)
        · rw [hargs] at hv
          obtain ⟨Δ, rs', c1, c2, c3, c4, c5⟩ :=
            capture_args_run E ((natStr (exprListLen (.cons a rest) - 1)).length)
              (.cons a rest) 0 st vs hargs rs0
          have hex : execSetups E
              (capture_args ((natStr (exprListLen (.cons a rest) - 1)).length) 0
                (.cons a rest) st).2.setup rs = some rs' := by
            rw [c1]
            exact execSetups_append3 hs c2
          refine run_finishCheck hok hex ?_
          rw [evalCond_callC c3]
          exact hv
    | cast inner ty => exact run_finishCheck hok hs hv
    | closure t => exact run_finishCheck hok hs hv
    | constE b =>
      rw [eval_expr_constE] at hok
      exact (IH (sizeE (.constE b)) hsz).2.1 b st out
        (by show sizeB b < sizeB b + 1; omega) hok hv rs rs0 hs
    | continueE t => exact errElim hok
    | field t => exact run_finishCheck hok hs hv
    | forLoop t => exact errElim hok
    | group inner =>
      rw [eval_expr_group] at hok
      exact (IH (sizeE (.group inner)) hsz).1 inner st out
        (by show sizeE inner < sizeE inner + 1; omega) hok hv rs rs0 hs
    | ifE attrs c tb eb =>
      cases eb with
      | none => exact run_finishCheck hok hs hv
      | some el =>
        rw [eval_expr_ifE] at hok
        rcases hb : eval_block tb (st.add_var c condName
            (condDisp (printable_expr_string c))).2.fork with err | thenO
        · rw [hb] at hok; exact errElim hok
        · rw [hb] at hok
          rcases he : recurse_else_branches el (st.add_var c condName
              (condDisp (printable_expr_string c))).2.fork with err | elseO
          · rw [he] at hok; exact errElim hok
          · rw [he] at hok
            injection hok with h
            subst h
            rw [show evalE E (.ifE attrs c tb (some el))
              = (match evalE E c with
                 | none => none
                 | some vc =>
                   match asBool vc with
                   | none => none
                   | some true => blockVal E tb
                   | some false => evalE E el) from rfl] at hv
            rcases hc : evalE E c with _ | vc
            · rw [hc] at hv
              exact absurd hv (by simp)
            · rw [hc] at hv
              have hv2 : (match asBool vc with
                | none => none
                | some true => blockVal E tb
                | some false => evalE E el) = some (Value.bool true) := hv
              rcases hab : asBool vc with _ | bc
              · rw [hab] at hv2
                exact absurd hv2 (by simp)
              · rw [hab] at hv2
                obtain ⟨Δc, rs1, d1, d2, d3, d4, d5, d6⟩ :=
                  add_var_run E st c condName (condDisp (printable_expr_string c)) vc hc rs0
                have hex : execSetups E (st.add_var c condName
                    (condDisp (printable_expr_string c))).2.resolve_variables.setup rs
                    = some rs1 := by
                  rw [show (st.add_var c condName
                      (condDisp (printable_expr_string c))).2.resolve_variables.setup
                    = (st.add_var c condName
                      (condDisp (printable_expr_string c))).2.setup from rfl, d1]
                  exact execSetups_append3 hs d2
                rw [runOutput_ifOut, hex]
                show (match evalAccess E rs1 (st.add_var c condName
                    (condDisp (printable_expr_string c))).1 with
                  | none => Res.stuck
                  | some v =>
                    match asBool v with
                    | none => Res.stuck
                    | some true => runOutput E thenO rs1
                    | some false => runOutput E elseO rs1) = Res.ok
                rw [d3]
                show (match asBool vc with
                  | none => Res.stuck
                  | some true => runOutput E thenO rs1
                  | some false => runOutput E elseO rs1) = Res.ok
                rw [hab]
                cases bc with
                | true =>
                  show runOutput E thenO rs1 = Res.ok
                  exact (IH (sizeE (.ifE attrs c tb (some el))) hsz).2.1 tb _ thenO
                    (by show sizeB tb < sizeE c + sizeB tb + sizeE el + 1; omega)
                    hb hv2 rs1 rs1 rfl
                | false =>
                  show runOutput E elseO rs1 = Res.ok
                  exact (IH (sizeE (.ifE attrs c tb (some el))) hsz).2.2.2.1 el _ elseO
                    (by show sizeE el < sizeE c + sizeB tb + sizeE el + 1; omega)
                    he hv2 rs1 rs1 rfl
    | indexE attrs obj idx =>
      rw [eval_expr_indexE] at hok
      by_cases hl : isLit idx = true
      · rw [if_pos hl] at hok
        exact run_finishCheck hok hs hv
      · rw [if_neg hl] at hok
        rw [show evalE E (.indexE attrs obj idx)
          = (match evalE E obj with
             | none => none
             | some vo =>
               match evalE E idx with
               | none => none
               | some vi => E.indexSem vo vi) from rfl] at hv
        rcases ho : evalE E obj with _ | vo
        · rw [ho] at hv
          exact absurd hv (by simp)
        · rw [ho] at hv
          rcases hi : evalE E idx with _ | vi
          · rw [hi] at hv
            exact absurd hv (by simp)
          · rw [hi] at hv
            obtain ⟨Δ, rs1, d1, d2, d3, d4, d5, d6⟩ :=
              add_var_run E st idx indexName indexName vi hi rs0
            have hex : execSetups E (st.add_var idx indexName indexName).2.setup rs
                = some rs1 := by
              rw [d1]
              exact execSetups_append3 hs d2
            refine run_finishCheck hok hex ?_
            rw [evalCond_indexC ho d3]
            exact hv
    | infer t => exact run_finishCheck hok hs hv
    | letE t => exact errElim hok
    | lit t => exact run_finishCheck hok hs hv
    | loopE t => exact run_finishCheck hok hs hv
    | macroE t => exact run_finishCheck hok hs hv
    | matchE attrs scrut arms =>
      rw [eval_expr_matchE] at hok
      rcases ha : eval_arms (printable_expr_string scrut) arms
          (st.add_var scrut matchedName matchedDisp).2.resolve_variables with err | armsO
      · rw [ha] at hok; exact errElim hok
      · rw [ha] at hok
        injection hok with h
        subst h
        rw [show evalE E (.matchE attrs scrut arms)
          = (match evalE E scrut with
             | none => none
             | some vs => matchVal E vs arms) from rfl] at hv
        rcases hsv : evalE E scrut with _ | vsc
        · rw [hsv] at hv
          exact absurd hv (by simp)
        · rw [hsv] at hv
          obtain ⟨Δm, rs1, d1, d2, d3, d4, d5, d6⟩ :=
            add_var_run E st scrut matchedName matchedDisp vsc hsv rs0
          have hex : execSetups E (st.add_var scrut matchedName
              matchedDisp).2.resolve_variables.setup rs = some rs1 := by
            rw [show (st.add_var scrut matchedName
                matchedDisp).2.resolve_variables.setup
              = (st.add_var scrut matchedName matchedDisp).2.setup from rfl, d1]
            exact execSetups_append3 hs d2
          rw [runOutput_matchOut, hex]
          show (match evalAccess E rs1 (st.add_var scrut matchedName matchedDisp).1 with
            | none => Res.stuck
            | some v => runArms E v armsO rs1) = Res.ok
          rw [d3]
          show runArms E vsc armsO rs1 = Res.ok
          exact (IH (sizeE (.matchE attrs scrut arms)) hsz).2.2.2.2
            (printable_expr_string scrut) arms _ armsO
            (by show sizeA arms < sizeE scrut + sizeA arms + 1; omega) ha vsc hv rs1
    | methodCall attrs recv m tf args =>
      rw [eval_expr_methodCall] at hok
      rw [show evalE E (.methodCall attrs recv m tf args)
        = (match evalE E recv with
           | none => none
           | some vr =>
             match evalArgsV E args with
             | none => none
             | some vs => E.methodSem (m ++ tf) vr vs) from rfl] at hv
      rcases hrec : evalE E recv with _ | vo
      · rw [hrec] at hv
        exact absurd hv (by simp)
      · rw [hrec] at hv
        rcases hargs : evalArgsV E args with _ | vs
        · rw [hargs] at hv
          exact absurd hv (by simp)
        · rw [hargs] at hv
          obtain ⟨Δ1, rs1, d1, d2, d3, d4, d5, d6⟩ :=
            add_var_run E st recv objectName objectName vo hrec rs0
          obtain ⟨Δ2, rs2, e1, e2, e3, e4, e5⟩ :=
            capture_args_run E ((natStr (exprListLen args - 1)).length) args 0
              (st.add_var recv objectName objectName).2 vs hargs rs1
          have hex : execSetups E
              (capture_args ((natStr (exprListLen args - 1)).length) 0 args
                (st.add_var recv objectName objectName).2).2.setup rs = some rs2 := by
            rw [e1, d1, List.append_assoc]
            exact execSetups_append3 hs (execSetups_append3 d2 e2)
          have hracc : evalAccess E rs2 (st.add_var recv objectName objectName).1
              = some vo := evalAccess_stable E d3 d4 e4
          refine run_finishCheck hok hex ?_
          rw [evalCond_methodC hracc e3]
          exact hv
    | paren inner =>
      rw [eval_expr_paren] at hok
      exact (IH (sizeE (.paren inner)) hsz).1 inner st out
        (by show sizeE inner < sizeE inner + 1; omega) hok hv rs rs0 hs
    | path t => exact run_finishCheck hok hs hv
    | range t => exact run_finishCheck hok hs hv
    | reference t => exact run_finishCheck hok hs hv
    | repeatE t => exact run_finishCheck hok hs hv
    | returnE t => exact errElim hok
    | structE t => exact errElim hok
    | tryE t => exact run_finishCheck hok hs hv
    | tuple t => exact run_finishCheck hok hs hv
    | unary attrs op a =>
      rw [eval_expr_unary] at hok
      rw [show evalE E (.unary attrs op a)
        = (match evalE E a with
           | none => none
           | some v => E.unSem op v) from rfl] at hv
      rcases ha : evalE E a with _ | va
      · rw [ha] at hv
        exact absurd hv (by simp)
      · rw [ha] at hv
        obtain ⟨Δ, rs1, d1, d2, d3, d4, d5, d6⟩ :=
          add_var_run E st a originalName originalName va ha rs0
        have hex : execSetups E (st.add_var a originalName originalName).2.setup rs
            = some rs1 := by
          rw [d1]
          exact execSetups_append3 hs d2
        refine run_finishCheck hok hex ?_
        rw [evalCond_unaryC d3]
        exact hv
    | unsafeE attrs b =>
      rw [eval_expr_unsafeE] at hok
      exact (IH (sizeE (.unsafeE attrs b)) hsz).2.1 b
        {st with possibly_unsafe_flag := true} out
        (by show sizeB b < sizeB b + 1; omega) hok hv rs rs0 hs
    | verbatim t => exact run_finishCheck hok hs hv
    | whileE t => exact errElim hok
  · intro b st out hsz hok hv rs rs0 hs
    cases b with
    | mk stmts =>
      rw [eval_block_eq] at hok
      exact (IH (sizeB (.mk stmts)) hsz).2.2.1 stmts stmts [] st.resolve_variables out
        (by show sizeSL stmts < sizeSL stmts + 1; omega) hok hv rs rs0 hs
  · intro orig rest lead st out hsz hok hv rs rs0 hs
    cases rest with
    | nil =>
      have hnone : (none : Option Value) = some (Value.bool true) := hv
      exact absurd hnone (by simp)
    | cons s rest2 =>
      cases rest2 with
      | nil =>
        cases s with
        | exprStmt e semi =>
          cases semi with
          | false =>
            rw [eval_block_stmts_last] at hok
            have hs2 : execSetups E
                ((st.add_cause (blockCause (printable_expr_string e))).setup
                  ++ lead.map SetupStmt.hoisted) rs = some rs0 :=
              execSetups_append3 hs (execSetups_hoisted E lead rs0)
            exact (IH (sizeSL (.cons (.exprStmt e false) .nil)) hsz).1 e _ out
              (by show sizeE e < sizeE e + 1 + 1 + 1; omega) hok hv rs rs0 hs2
          | true =>
            have hnone : (none : Option Value) = some (Value.bool true) := hv
            exact absurd hnone (by simp)
        | other t =>
          have hnone : (none : Option Value) = some (Value.bool true) := hv
          exact absurd hnone (by simp)
      | cons s2 r2 =>
        rw [eval_block_stmts_cons] at hok
        exact (IH (sizeSL (.cons s (.cons s2 r2))) hsz).2.2.1 orig (.cons s2 r2)
          (lead ++ [s]) st out
          (by show sizeSL (.cons s2 r2) < sizeS s + sizeSL (.cons s2 r2) + 1; omega)
          hok hv rs rs0 hs
  · intro br st out hsz hok hv rs rs0 hs
    cases br with
    | blockE b =>
      rw [recurse_else_blockE] at hok
      rcases hb : eval_block b st with err | body
      · rw [hb] at hok; exact errElim hok
      · rw [hb] at hok
        injection hok with h
        subst h
        rw [runOutput_braced]
        exact (IH (sizeE (.blockE b)) hsz).2.1 b st body
          (by show sizeB b < sizeB b + 1; omega) hb hv rs rs0 hs
    | ifE attrs c tb eb =>
      cases eb with
      | none =>
        have hnone : (none : Option Value) = some (Value.bool true) := hv
        exact absurd hnone (by simp)
      | some el =>
        rw [recurse_else_ifE] at hok
        rcases hb : eval_block tb (st.add_var c condName
            (condDisp (printable_expr_string c))).2.fork with err | thenO
        · rw [hb] at hok; exact errElim hok
        · rw [hb] at hok
          rcases he : recurse_else_branches el (st.add_var c condName
              (condDisp (printable_expr_string c))).2.fork with err | elseO
          · rw [he] at hok; exact errElim hok
          · rw [he] at hok
            injection hok with h
            subst h
            rw [show evalE E (.ifE attrs c tb (some el))
              = (match evalE E c with
                 | none => none
                 | some vc =>
                   match asBool vc with
                   | none => none
                   | some true => blockVal E tb
                   | some false => evalE E el) from rfl] at hv
            rcases hc : evalE E c with _ | vc
            · rw [hc] at hv
              exact absurd hv (by simp)
            · rw [hc] at hv
              have hv2 : (match asBool vc with
                | none => none
                | some true => blockVal E tb
                | some false => evalE E el) = some (Value.bool true) := hv
              rcases hab : asBool vc with _ | bc
              · rw [hab] at hv2
                exact absurd hv2 (by simp)
              · rw [hab] at hv2
                obtain ⟨Δc, rs1, d1, d2, d3, d4, d5, d6⟩ :=
                  add_var_run E st c condName (condDisp (printable_expr_string c)) vc hc rs0
                have hex : execSetups E (st.add_var c condName
                    (condDisp (printable_expr_string c))).2.resolve_variables.setup rs
                    = some rs1 := by
                  rw [show (st.add_var c condName
                      (condDisp (printable_expr_string c))).2.resolve_variables.setup
                    = (st.add_var c condName
                      (condDisp (printable_expr_string c))).2.setup from rfl, d1]
                  exact execSetups_append3 hs d2
                rw [runOutput_ifOut, hex]
                show (match evalAccess E rs1 (st.add_var c condName
                    (condDisp (printable_expr_string c))).1 with
                  | none => Res.stuck
                  | some v =>
                    match asBool v with
                    | none => Res.stuck
                    | some true => runOutput E thenO rs1
                    | some false => runOutput E elseO rs1) = Res.ok
                rw [d3]
                show (match asBool vc with
                  | none => Res.stuck
                  | some true => runOutput E thenO rs1
                  | some false => runOutput E elseO rs1) = Res.ok
                rw [hab]
                cases bc with
                | true =>
                  show runOutput E thenO rs1 = Res.ok
                  exact (IH (sizeE (.ifE attrs c tb (some el))) hsz).2.1 tb _ thenO
                    (by show sizeB tb < sizeE c + sizeB tb + sizeE el + 1; omega)
                    hb hv2 rs1 rs1 rfl
                | false =>
                  show runOutput E elseO rs1 = Res.ok
                  exact (IH (sizeE (.ifE attrs c tb (some el))) hsz).2.2.2.1 el _ elseO
                    (by show sizeE el < sizeE c + sizeB tb + sizeE el + 1; omega)
                    he hv2 rs1 rs1 rfl
    | array t => exact errElim hok
    | assign t q => exact errElim hok
    | asyncE t => exact errElim hok
    | awaitE t => exact errElim hok
    | binary attrs l op r => exact errElim hok
    | breakE t => exact errElim hok
    | call attrs f args => exact errElim hok
    | cast inner ty => exact errElim hok
    | closure t => exact errElim hok
    | constE b => exact errElim hok
    | continueE t => exact errElim hok
    | field t => exact errElim hok
    | forLoop t => exact errElim hok
    | group inner => exact errElim hok
    | indexE attrs obj idx => exact errElim hok
    | infer t => exact errElim hok
    | letE t => exact errElim hok
    | lit t => exact errElim hok
    | loopE t => exact errElim hok
    | macroE t => exact errElim hok
    | matchE attrs scrut arms => exact errElim hok
    | methodCall attrs recv m tf args => exact errElim hok
    | paren inner => exact errElim hok
    | path t => exact errElim hok
    | range t => exact errElim hok
    | reference t => exact errElim hok
    | repeatE t => exact errElim hok
    | returnE t => exact errElim hok
    | structE t => exact errElim hok
    | tryE t => exact errElim hok
    | tuple t => exact errElim hok
    | unary attrs op a => exact errElim hok
    | unsafeE attrs b => exact errElim hok
    | verbatim t => exact errElim hok
    | whileE t => exact errElim hok
  · intro ss arms st outs hsz hok v hm rs
    cases arms with
    | nil =>
      have hnone : (none : Option Value) = some (Value.bool true) := hm
      exact absurd hnone (by simp)
    | cons attrs pat body rest =>
      rw [eval_arms_cons] at hok
      rcases hb : eval_expr body (st.fork.add_cause (matchCause ss pat body)) with err | o
      · rw [hb] at hok; exact errElim hok
      · rw [hb] at hok
        rcases hr : eval_arms ss rest st with err | restO
        · rw [hr] at hok; exact errElim hok
        · rw [hr] at hok
          injection hok with h
          subst h
          rw [show matchVal E v (.cons attrs pat body rest)
            = (if E.patMatch pat v then evalE E body else matchVal E v rest)
            from rfl] at hm
          rw [runArms_cons]
          by_cases hpm : E.patMatch pat v = true
          · rw [if_pos hpm] at hm
            rw [if_pos hpm]
            exact (IH (sizeA (.cons attrs pat body rest)) hsz).1 body _ o
              (by show sizeE body < sizeE body + sizeA rest + 1; omega) hb hm rs rs rfl
          · rw [if_neg hpm] at hm
            rw [if_neg hpm]
            exact (IH (sizeA (.cons attrs pat body rest)) hsz).2.2.2.2 ss rest st restO
              (by show sizeA rest < sizeE body + sizeA rest + 1; omega) hr v hm rs

def envC8 : Env :=
  { leafVal := fun e =>
      match e with
      | .lit t => if t = "true".toList then some (.bool true) else none
      | _ => none
    opSem := fun _ _ _ => none
    unSem := fun _ _ => none
    callSem := fun _ _ => none
    methodSem := fun _ _ _ => none
    indexSem := fun _ _ => none
    patMatch := fun _ _ => false
    fmtDebug := fun _ => []
    fmtMsg := fun s => s
    line := 1 }

set_option maxRecDepth 100000 in
/-- C8 counterexample: the whole-condition literal `true` case is NOT
semantics-preserving.  For the input `true` the transform takes the
`assert_true_flavor` fast path, whose generated code panics on most source
lines even though the condition evaluates to `true`: at `line!() = 1` it
panics with the joke message `MESSAGES[1]`. -/
theorem c8_counterexample :
    assert_internal (.lit ("true".toList)) [] = .ok .trueFlavor ∧
    evalE envC8 (.lit ("true".toList)) = some (.bool true) ∧
    runOutput envC8 .trueFlavor RunSt.empty
      = .fails ("assertion `true` failed:\n  left: tr\n right: ue".toList) :=
  ⟨rfl, rfl, rfl⟩

/-- C8 (amended): for every condition accepted by the transform whose textual
form is neither the literal `true` nor the literal `false`, the rewritten code
preserves runtime semantics on success: whenever the original condition
evaluates to `true`, running the generated replacement code from the empty
store does not panic (the literal `true` input instead hits the deliberately
panicking flavor-text path, and the literal `false` input compiles to an
unconditional panic). -/
theorem c8_true_no_panic (E : Env) (e : Expr) (fmt : Str) (out : Output)
    (hok : assert_internal e fmt = .ok out)
    (hne : printable_expr_string e ≠ trueStr)
    (hnf : printable_expr_string e ≠ falseStr)
    (hv : evalE E e = some (.bool true)) :
    runOutput E out RunSt.empty = .ok := by
  rw [assert_internal_eq e fmt hne hnf] at hok
  have hsetup : execSetups E (initState e fmt).setup RunSt.empty = some RunSt.empty := by
    rw [(initState_fields e fmt).1]
    rfl
  exact (run_main E (sizeE e + 1)).1 e (initState e fmt) out (by omega) hok hv
    RunSt.empty RunSt.empty hsetup

def exC8w : Expr := .binary [] (.path ("a".toList)) ("==".toList) (.lit ("1".toList))

def outC8w : Output :=
  match assert_internal exC8w [] with
  | .ok o => o
  | .error _ => .falsePanic

def envC8w : Env :=
  { leafVal := fun e =>
      match e with
      | .path t => if t = "a".toList then some (.int 1) else none
      | .lit t => if t = "1".toList then some (.int 1) else none
      | _ => none
    opSem := fun op x y => if op = "==".toList then some (.bool (x = y)) else none
    unSem := fun _ _ => none
    callSem := fun _ _ => none
    methodSem := fun _ _ _ => none
    indexSem := fun _ _ => none
    patMatch := fun _ _ => false
    fmtDebug := fun _ => "1".toList
    fmtMsg := fun s => s
    line := 0 }

set_option maxRecDepth 100000 in
theorem c8_witness :
    assert_internal exC8w [] = .ok outC8w ∧
    evalE envC8w exC8w = some (.bool true) ∧
    runOutput envC8w outC8w RunSt.empty = .ok :=
  ⟨rfl, rfl,
    c8_true_no_panic envC8w exC8w [] outC8w rfl (by decide) (by decide) rfl⟩
